import Mathlib

/-!
Verification development for the ComixConvert conversion pipeline
(`src/main.py`, with `src/ComixConvert.py` as the earlier variant).

The pipeline is shallowly embedded: the file system walk is modelled as a
list of file names, the external 7-Zip process as its observable result
(return code, stdout, stderr), image decoding/encoding as an external
capability (only the produced file names matter for the properties below),
and the EPUB ZIP container as the ordered list of entries with their
per-entry compression choice.  `uuid.uuid4()` is modelled as an externally
supplied fresh token parameter.
-/

/-! ## Natural sort key (`main.py`, `natural_key`, lines 26-31)

`_NSRE = re.compile(r"(\d+)")` and
`natural_key p = [int(t) if t.isdigit() else t for t in _NSRE.split(p.name.lower())]`.

`re.split` with a capturing group of maximal digit runs yields an
alternating list `text, digits, text, digits, ..., text` where the text
pieces (possibly empty) contain no digit and the captured pieces are
all digits.  A key element is therefore `Sum.inl` (a text run) or
`Sum.inr` (the integer value of a digit run). -/

/-- Value of a digit-character run, as Python `int` of the run. -/
def digitsToNat (cs : List Char) : Nat :=
  cs.foldl (fun n c => 10 * n + (c.toNat - 48)) 0

/-- Core splitter for `natural_key`: processes the character list with the
current run accumulated in reverse in `acc`; the flag is `true` while inside
a digit run.  Mirrors `_NSRE.split` followed by the digit test. -/
def natKeyGo : Bool → List Char → List Char → List (Sum String Nat)
  | false, acc, [] => [Sum.inl (String.mk acc.reverse)]
  | true, acc, [] => [Sum.inr (digitsToNat acc.reverse), Sum.inl ""]
  | false, acc, c :: cs =>
    if c.isDigit then Sum.inl (String.mk acc.reverse) :: natKeyGo true [c] cs
    else natKeyGo false (c :: acc) cs
  | true, acc, c :: cs =>
    if c.isDigit then natKeyGo true (c :: acc) cs
    else Sum.inr (digitsToNat acc.reverse) :: natKeyGo false [c] cs

/-- Model of `natural_key` in `main.py` (lines 29-31): lowercase the file name, split
into alternating text/digit runs, digit runs as integers. -/
def natural_key (name : String) : List (Sum String Nat) :=
  natKeyGo false [] (name.data.map Char.toLower)

/-! ## Python comparison of the keys

Python compares the key lists lexicographically; `str`/`str` elements are
compared by code points, `int`/`int` numerically, and an `int`/`str`
comparison raises `TypeError` — modelled by `none`. -/

/-- Three-way comparison of naturals, as Python `int` comparison. -/
def cmpNat (a b : Nat) : Ordering :=
  if a < b then Ordering.lt else if b < a then Ordering.gt else Ordering.eq

/-- Lexicographic comparison of character lists by code point, as Python
string comparison. -/
def cmpCharList : List Char → List Char → Ordering
  | [], [] => Ordering.eq
  | [], _ :: _ => Ordering.lt
  | _ :: _, [] => Ordering.gt
  | a :: as, b :: bs =>
    match cmpNat a.toNat b.toNat with
    | Ordering.eq => cmpCharList as bs
    | o => o

/-- Python string comparison. -/
def cmpStr (a b : String) : Ordering := cmpCharList a.data b.data

/-- Comparison of one key element; `none` models Python's `TypeError` on an
`int`/`str` comparison. -/
def cmpElem : Sum String Nat → Sum String Nat → Option Ordering
  | Sum.inl a, Sum.inl b => some (cmpStr a b)
  | Sum.inr a, Sum.inr b => some (cmpNat a b)
  | _, _ => none

/-- Python comparison of two key lists: lexicographic, a strict prefix is
smaller; `none` propagates a `TypeError` from an element comparison. -/
def cmpKey : List (Sum String Nat) → List (Sum String Nat) → Option Ordering
  | [], [] => some Ordering.eq
  | [], _ :: _ => some Ordering.lt
  | _ :: _, [] => some Ordering.gt
  | a :: as, b :: bs =>
    match cmpElem a b with
    | none => none
    | some Ordering.eq => cmpKey as bs
    | some o => some o

/-- Shape of a well-formed key: elements strictly alternate between text
runs (`inl`) and digit runs (`inr`); the flag records whether a text run is
expected next. -/
def keyShape : List (Sum String Nat) → Bool → Bool
  | [], _ => true
  | Sum.inl _ :: r, true => keyShape r false
  | Sum.inr _ :: r, false => keyShape r true
  | _, _ => false

theorem keyShape_natKeyGo (cs : List Char) :
    ∀ b acc, keyShape (natKeyGo b acc cs) (!b) = true := by
  induction cs with
  | nil =>
    intro b acc
    cases b <;> simp [natKeyGo, keyShape]
  | cons c cs ih =>
    intro b acc
    cases b <;> by_cases hd : c.isDigit = true <;>
        simp only [natKeyGo, hd, if_true, if_false, keyShape, ite_true, ite_false] <;>
      first
        | exact ih true [c]
        | exact ih false (c :: acc)
        | exact ih true (c :: acc)
        | exact ih false [c]

theorem keyShape_natural_key (s : String) : keyShape (natural_key s) true = true := by
  have h := keyShape_natKeyGo (s.data.map Char.toLower) false []
  simpa [natural_key] using h

/-- Two keys of the same shape are comparable: the comparison never reaches
an `int`/`str` pair. -/
theorem cmpKey_isSome_of_shape :
    ∀ (a b : List (Sum String Nat)) (p : Bool),
      keyShape a p = true → keyShape b p = true → (cmpKey a b).isSome = true := by
  intro a
  induction a with
  | nil =>
    intro b p _ _
    cases b <;> simp [cmpKey]
  | cons x xs ih =>
    intro b p ha hb
    cases b with
    | nil => simp [cmpKey]
    | cons y ys =>
      cases x with
      | inl sx =>
        cases p with
        | false => simp [keyShape] at ha
        | true =>
          cases y with
          | inl sy =>
            simp only [keyShape] at ha hb
            cases h : cmpStr sx sy <;>
              simp [cmpKey, cmpElem, h, ih ys false ha hb]
          | inr ny => simp [keyShape] at hb
      | inr nx =>
        cases p with
        | true => simp [keyShape] at ha
        | false =>
          cases y with
          | inl sy => simp [keyShape] at hb
          | inr ny =>
            simp only [keyShape] at ha hb
            cases h : cmpNat nx ny <;>
              simp [cmpKey, cmpElem, h, ih ys true ha hb]

/-! ### Basic facts about the comparisons -/

theorem cmpNat_eq_lt {a b : Nat} : cmpNat a b = Ordering.lt ↔ a < b := by
  unfold cmpNat
  by_cases h1 : a < b
  · simp [h1]
  · by_cases h2 : b < a <;> simp [h1, h2]

theorem cmpNat_eq_gt {a b : Nat} : cmpNat a b = Ordering.gt ↔ b < a := by
  unfold cmpNat
  by_cases h1 : a < b
  · simp [h1]
    omega
  · by_cases h2 : b < a <;> simp [h1, h2]

theorem cmpNat_eq_eq {a b : Nat} : cmpNat a b = Ordering.eq ↔ a = b := by
  unfold cmpNat
  by_cases h1 : a < b
  · simp [h1]
    omega
  · by_cases h2 : b < a <;> simp [h1, h2] <;> omega

theorem cmpNat_swap (a b : Nat) : cmpNat b a = (cmpNat a b).swap := by
  unfold cmpNat
  by_cases h1 : a < b
  · simp [h1, Nat.lt_asymm h1, Ordering.swap]
  · by_cases h2 : b < a
    · simp [h1, h2, Ordering.swap]
    · simp [h1, h2, Ordering.swap]

theorem cmpCharList_swap : ∀ as bs : List Char, cmpCharList bs as = (cmpCharList as bs).swap := by
  intro as
  induction as with
  | nil => intro bs; cases bs <;> simp [cmpCharList, Ordering.swap]
  | cons a as ih =>
    intro bs
    cases bs with
    | nil => simp [cmpCharList, Ordering.swap]
    | cons b bs =>
      simp only [cmpCharList, cmpNat_swap a.toNat b.toNat]
      cases h : cmpNat a.toNat b.toNat <;> simp [Ordering.swap, ih bs]

theorem cmpStr_swap (a b : String) : cmpStr b a = (cmpStr a b).swap :=
  cmpCharList_swap a.data b.data

theorem cmpElem_swap :
    ∀ x y : Sum String Nat, cmpElem y x = (cmpElem x y).map Ordering.swap := by
  intro x y
  cases x with
  | inl sx =>
    cases y with
    | inl sy => simp only [cmpElem, Option.map]; rw [cmpStr_swap]
    | inr ny => simp [cmpElem]
  | inr nx =>
    cases y with
    | inl sy => simp [cmpElem]
    | inr ny => simp only [cmpElem, Option.map]; rw [cmpNat_swap]

theorem cmpKey_swap :
    ∀ a b : List (Sum String Nat), cmpKey b a = (cmpKey a b).map Ordering.swap := by
  intro a
  induction a with
  | nil => intro b; cases b <;> simp [cmpKey, Ordering.swap]
  | cons x xs ih =>
    intro b
    cases b with
    | nil => simp [cmpKey, Ordering.swap]
    | cons y ys =>
      simp only [cmpKey, cmpElem_swap x y]
      cases h : cmpElem x y with
      | none => simp
      | some o => cases o <;> simp [Ordering.swap, ih ys]

/-! ### `eq` results are substitutive -/

theorem cmpCharList_eq_congr :
    ∀ as bs : List Char, cmpCharList as bs = Ordering.eq →
      ∀ cs, cmpCharList bs cs = cmpCharList as cs := by
  intro as
  induction as with
  | nil =>
    intro bs h cs
    cases bs with
    | nil => rfl
    | cons b bt => simp [cmpCharList] at h
  | cons a at_ ih =>
    intro bs h cs
    cases bs with
    | nil => simp [cmpCharList] at h
    | cons b bt =>
      have hab : a.toNat = b.toNat := by
        rcases hh : cmpNat a.toNat b.toNat with _ | _ | _ <;>
          simp [cmpCharList, hh] at h
        · exact cmpNat_eq_eq.mp hh
      have htail : cmpCharList at_ bt = Ordering.eq := by
        simpa [cmpCharList, cmpNat_eq_eq.mpr hab] using h
      cases cs with
      | nil => simp [cmpCharList]
      | cons c ct =>
        simp only [cmpCharList, hab]
        cases hc : cmpNat b.toNat c.toNat <;> simp [ih bt htail ct]

theorem cmpElem_eq_congr {x y : Sum String Nat}
    (h : cmpElem x y = some Ordering.eq) :
    ∀ z, cmpElem y z = cmpElem x z := by
  intro z
  cases x with
  | inl sx =>
    cases y with
    | inl sy =>
      have hs : cmpStr sx sy = Ordering.eq := by simpa [cmpElem] using h
      cases z with
      | inl sz =>
        simp only [cmpElem]
        rw [show cmpStr sy sz = cmpStr sx sz from
          cmpCharList_eq_congr sx.data sy.data hs sz.data]
      | inr nz => simp [cmpElem]
    | inr ny => simp [cmpElem] at h
  | inr nx =>
    cases y with
    | inl sy => simp [cmpElem] at h
    | inr ny =>
      have hn : nx = ny := cmpNat_eq_eq.mp (by simpa [cmpElem] using h)
      subst hn
      rfl

theorem cmpKey_eq_congr :
    ∀ a b : List (Sum String Nat), cmpKey a b = some Ordering.eq →
      ∀ c, cmpKey b c = cmpKey a c := by
  intro a
  induction a with
  | nil =>
    intro b h c
    cases b with
    | nil => rfl
    | cons y ys => simp [cmpKey] at h
  | cons x xs ih =>
    intro b h c
    cases b with
    | nil => simp [cmpKey] at h
    | cons y ys =>
      have hx : cmpElem x y = some Ordering.eq := by
        rcases hh : cmpElem x y with _ | o
        · simp [cmpKey, hh] at h
        · cases o <;> simp [cmpKey, hh] at h <;> simp [hh]
      have htail : cmpKey xs ys = some Ordering.eq := by
        simpa [cmpKey, hx] using h
      cases c with
      | nil => simp [cmpKey]
      | cons z zs =>
        simp only [cmpKey, cmpElem_eq_congr hx z]
        cases hz : cmpElem x z with
        | none => rfl
        | some o => cases o <;> simp [ih ys htail zs]

/-! ### Strict transitivity -/

theorem cmpCharList_lt_trans :
    ∀ as bs cs : List Char, cmpCharList as bs = Ordering.lt →
      cmpCharList bs cs = Ordering.lt → cmpCharList as cs = Ordering.lt := by
  intro as
  induction as with
  | nil =>
    intro bs cs h1 h2
    cases bs with
    | nil => simp [cmpCharList] at h1
    | cons b bt =>
      cases cs with
      | nil => simp [cmpCharList] at h2
      | cons c ct => simp [cmpCharList]
  | cons a at_ ih =>
    intro bs cs h1 h2
    cases bs with
    | nil => simp [cmpCharList] at h1
    | cons b bt =>
      cases cs with
      | nil => simp [cmpCharList] at h2
      | cons c ct =>
        rcases hab : cmpNat a.toNat b.toNat with _ | _ | _
        · -- a < b
          rcases hbc : cmpNat b.toNat c.toNat with _ | _ | _
          · have : a.toNat < c.toNat :=
              Nat.lt_trans (cmpNat_eq_lt.mp hab) (cmpNat_eq_lt.mp hbc)
            simp [cmpCharList, cmpNat_eq_lt.mpr this]
          · have hb : b.toNat = c.toNat := cmpNat_eq_eq.mp hbc
            have : a.toNat < c.toNat := hb ▸ cmpNat_eq_lt.mp hab
            simp [cmpCharList, cmpNat_eq_lt.mpr this]
          · simp [cmpCharList, hbc] at h2
        · -- a = b
          have hb : a.toNat = b.toNat := cmpNat_eq_eq.mp hab
          rcases hbc : cmpNat b.toNat c.toNat with _ | _ | _
          · have : a.toNat < c.toNat := hb ▸ cmpNat_eq_lt.mp hbc
            simp [cmpCharList, cmpNat_eq_lt.mpr this]
          · have h1t : cmpCharList at_ bt = Ordering.lt := by
              simpa [cmpCharList, hab] using h1
            have h2t : cmpCharList bt ct = Ordering.lt := by
              simpa [cmpCharList, hbc] using h2
            have hac : cmpNat a.toNat c.toNat = Ordering.eq := by
              rw [cmpNat_eq_eq, hb, ← cmpNat_eq_eq]; exact hbc
            simp [cmpCharList, hac, ih bt ct h1t h2t]
          · simp [cmpCharList, hbc] at h2
        · simp [cmpCharList, hab] at h1

theorem cmpElem_lt_trans {x y z : Sum String Nat}
    (h1 : cmpElem x y = some Ordering.lt) (h2 : cmpElem y z = some Ordering.lt) :
    cmpElem x z = some Ordering.lt := by
  cases x <;> cases y <;> cases z <;> simp [cmpElem] at h1 h2 ⊢
  · exact cmpCharList_lt_trans _ _ _ h1 h2
  · exact cmpNat_eq_lt.mpr (Nat.lt_trans (cmpNat_eq_lt.mp h1) (cmpNat_eq_lt.mp h2))

theorem cmpKey_lt_trans :
    ∀ a b c : List (Sum String Nat), cmpKey a b = some Ordering.lt →
      cmpKey b c = some Ordering.lt → cmpKey a c = some Ordering.lt := by
  intro a
  induction a with
  | nil =>
    intro b c h1 h2
    cases b with
    | nil => simp [cmpKey] at h1
    | cons y ys =>
      cases c with
      | nil => simp [cmpKey] at h2
      | cons z zs => simp [cmpKey]
  | cons x xs ih =>
    intro b c h1 h2
    cases b with
    | nil => simp [cmpKey] at h1
    | cons y ys =>
      cases c with
      | nil => simp [cmpKey] at h2
      | cons z zs =>
        rcases hxy : cmpElem x y with _ | oxy
        · simp [cmpKey, hxy] at h1
        rcases hyz : cmpElem y z with _ | oyz
        · simp [cmpKey, hyz] at h2
        cases oxy with
        | lt =>
          cases oyz with
          | lt =>
            simp [cmpKey, cmpElem_lt_trans hxy hyz]
          | eq =>
            have hswap : cmpElem z y = some Ordering.eq := by
              rw [cmpElem_swap y z, hyz]; rfl
            have hyx : cmpElem y x = some Ordering.gt := by
              rw [cmpElem_swap x y, hxy]; rfl
            have hzx : cmpElem z x = some Ordering.gt :=
              (cmpElem_eq_congr hswap x) ▸ hyx
            have hxz : cmpElem x z = some Ordering.lt := by
              rw [cmpElem_swap z x, hzx]; rfl
            simp [cmpKey, hxz]
          | gt => simp [cmpKey, hyz] at h2
        | eq =>
          have hxz := cmpElem_eq_congr hxy z
          cases oyz with
          | lt =>
            simp [cmpKey, hxz ▸ hyz]
          | eq =>
            have h1t : cmpKey xs ys = some Ordering.lt := by
              simpa [cmpKey, hxy] using h1
            have h2t : cmpKey ys zs = some Ordering.lt := by
              simpa [cmpKey, hyz] using h2
            have : cmpElem x z = some Ordering.eq := hxz ▸ hyz
            simp [cmpKey, this, ih ys zs h1t h2t]
          | gt => simp [cmpKey, hyz] at h2
        | gt => simp [cmpKey, hxy] at h1

/-! ### The sort order used by `collect_images`

Python's `sort(key=natural_key)` orders two files by comparing their keys
with `<`; `keyLeB x y` holds when the key of `x` does not exceed the key of
`y`. -/

/-- Comparison of two file names by their natural keys. -/
def keyLeB (x y : String) : Bool :=
  match cmpKey (natural_key x) (natural_key y) with
  | some Ordering.gt => false
  | _ => true

theorem keyLeB_iff {x y : String} :
    keyLeB x y = true ↔ cmpKey (natural_key x) (natural_key y) ≠ some Ordering.gt := by
  unfold keyLeB
  rcases h : cmpKey (natural_key x) (natural_key y) with _ | o
  · simp
  · cases o <;> simp

theorem cmpKey_natural_key_isSome (x y : String) :
    ∃ o, cmpKey (natural_key x) (natural_key y) = some o := by
  have h := cmpKey_isSome_of_shape (natural_key x) (natural_key y) true
    (keyShape_natural_key x) (keyShape_natural_key y)
  rcases ho : cmpKey (natural_key x) (natural_key y) with _ | o
  · rw [ho] at h
    simp at h
  · exact ⟨o, rfl⟩

theorem keyLeB_total (x y : String) : keyLeB x y = true ∨ keyLeB y x = true := by
  rcases cmpKey_natural_key_isSome x y with ⟨o, ho⟩
  cases o with
  | lt => exact Or.inl (keyLeB_iff.mpr (by simp [ho]))
  | eq => exact Or.inl (keyLeB_iff.mpr (by simp [ho]))
  | gt =>
    refine Or.inr (keyLeB_iff.mpr ?_)
    rw [cmpKey_swap, ho]
    simp [Ordering.swap]

theorem keyLeB_trans {x y z : String}
    (h1 : keyLeB x y = true) (h2 : keyLeB y z = true) : keyLeB x z = true := by
  rcases cmpKey_natural_key_isSome x y with ⟨o1, ho1⟩
  rcases cmpKey_natural_key_isSome y z with ⟨o2, ho2⟩
  have h1t : o1 ≠ Ordering.gt := fun h => (keyLeB_iff.mp h1) (h ▸ ho1)
  have h2t : o2 ≠ Ordering.gt := fun h => (keyLeB_iff.mp h2) (h ▸ ho2)
  refine keyLeB_iff.mpr ?_
  cases o1 with
  | gt => exact absurd rfl h1t
  | eq =>
    have hc := cmpKey_eq_congr _ _ ho1 (natural_key z)
    rw [← hc, ho2]
    exact fun h => h2t (Option.some.inj h)
  | lt =>
    cases o2 with
    | gt => exact absurd rfl h2t
    | lt =>
      rw [cmpKey_lt_trans _ _ _ ho1 ho2]
      simp
    | eq =>
      have hswap : cmpKey (natural_key z) (natural_key y) = some Ordering.eq := by
        rw [cmpKey_swap, ho2]; rfl
      have hyx : cmpKey (natural_key y) (natural_key x) = some Ordering.gt := by
        rw [cmpKey_swap, ho1]; rfl
      have hzx : cmpKey (natural_key z) (natural_key x) = some Ordering.gt := by
        rw [← cmpKey_eq_congr _ _ hswap (natural_key x)]
        exact hyx
      have hxz : cmpKey (natural_key x) (natural_key z) = some Ordering.lt := by
        rw [cmpKey_swap, hzx]; rfl
      rw [hxz]
      simp

/-! ## Image collection (`main.py`, `collect_images`, lines 62-68)

The recursive walk `root.rglob("*")` is modelled by the list of file names
it yields, in walk order.  `imgs.sort(key=natural_key)` is a stable
comparison sort over `keyLeB`; it is modelled by a stable insertion sort. -/

/-- The set `IMAGE_EXTS` of `main.py` line 24. -/
def IMAGE_EXTS : List String :=
  [".jpg", ".jpeg", ".png", ".webp", ".bmp", ".tif", ".tiff"]

/-- Python `str.lower` (ASCII case folding suffices for the extensions). -/
def strLower (s : String) : String := String.mk (s.data.map Char.toLower)

/-- Index of the last `'.'` in a character list, as Python `str.rfind`. -/
def rfindDot : List Char → Option Nat
  | [] => none
  | c :: cs =>
    match rfindDot cs with
    | some i => some (i + 1)
    | none => if c = '.' then some 0 else none

/-- Model of `pathlib.PurePath.suffix`: the final extension of the name including the
dot, and `""` when the last dot is leading or trailing. -/
def pySuffix (name : String) : String :=
  let cs := name.data
  match rfindDot cs with
  | none => ""
  | some i => if 0 < i ∧ i < cs.length - 1 then String.mk (cs.drop i) else ""

/-- The filter of `collect_images`: `p.suffix.lower() in IMAGE_EXTS`. -/
def isImageFile (name : String) : Bool := IMAGE_EXTS.contains (strLower (pySuffix name))

/-- Stable insertion of a name into a sorted list, by natural key. -/
def insertSorted (x : String) : List String → List String
  | [] => [x]
  | y :: ys => if keyLeB x y then x :: y :: ys else y :: insertSorted x ys

/-- Stable sort by natural key, modelling `imgs.sort(key=natural_key)`. -/
def sortByNat : List String → List String
  | [] => []
  | x :: xs => insertSorted x (sortByNat xs)

/-- Model of `collect_images` in `main.py` (lines 62-68) on the modelled walk
output: keep the files whose lowercased suffix is a known image extension,
in walk order, then sort by natural key. -/
def collect_images (files : List String) : List String :=
  sortByNat (files.filter isImageFile)

theorem insertSorted_perm (x : String) :
    ∀ l : List String, (insertSorted x l).Perm (x :: l) := by
  intro l
  induction l with
  | nil => simp [insertSorted]
  | cons y ys ih =>
    by_cases h : keyLeB x y = true
    · simp [insertSorted, h]
    · simp only [insertSorted, h, if_false, ite_false]
      exact (List.Perm.cons y ih).trans (List.Perm.swap x y ys)

theorem sortByNat_perm : ∀ l : List String, (sortByNat l).Perm l := by
  intro l
  induction l with
  | nil => simp [sortByNat]
  | cons x xs ih =>
    exact (insertSorted_perm x (sortByNat xs)).trans (List.Perm.cons x ih)

theorem mem_insertSorted {a x : String} :
    ∀ {l : List String}, a ∈ insertSorted x l → a = x ∨ a ∈ l := by
  intro l h
  have := (insertSorted_perm x l).mem_iff.mp h
  simpa using this

theorem insertSorted_pairwise (x : String) :
    ∀ l : List String, l.Pairwise (fun a b => keyLeB a b = true) →
      (insertSorted x l).Pairwise (fun a b => keyLeB a b = true) := by
  intro l
  induction l with
  | nil => intro _; simp [insertSorted]
  | cons y ys ih =>
    intro hp
    rcases List.pairwise_cons.mp hp with ⟨hy, hys⟩
    by_cases h : keyLeB x y = true
    · simp only [insertSorted, h, if_true, ite_true]
      refine List.pairwise_cons.mpr ⟨?_, hp⟩
      intro b hb
      rcases List.mem_cons.mp hb with hby | hbm
      · rw [hby]
        exact h
      · exact keyLeB_trans h (hy b hbm)
    · simp only [insertSorted, h, if_false, ite_false]
      refine List.pairwise_cons.mpr ⟨?_, ih hys⟩
      intro b hb
      rcases mem_insertSorted hb with hbx | hbm
      · rw [hbx]
        rcases keyLeB_total x y with hxy | hyx
        · exact absurd hxy h
        · exact hyx
      · exact hy b hbm

theorem sortByNat_pairwise :
    ∀ l : List String, (sortByNat l).Pairwise (fun a b => keyLeB a b = true) := by
  intro l
  induction l with
  | nil => simp [sortByNat]
  | cons x xs ih => exact insertSorted_pairwise x (sortByNat xs) ih

/-- C1: `collect_images` returns exactly the files whose (case-insensitive)
extension is a known image extension, sorted by natural key — the lowercased
name split into alternating text/digit runs, text runs compared
lexicographically, digit runs numerically — and on
`["p2.jpg","p10.jpg","p1.jpg"]` it yields `["p1.jpg","p2.jpg","p10.jpg"]`. -/
theorem collect_images_natural_order (files : List String) :
    (collect_images files).Perm (files.filter isImageFile)
    ∧ (collect_images files).Pairwise (fun a b => keyLeB a b = true)
    ∧ collect_images ["p2.jpg", "p10.jpg", "p1.jpg"] = ["p1.jpg", "p2.jpg", "p10.jpg"] := by
  refine ⟨sortByNat_perm _, sortByNat_pairwise _, ?_⟩
  rfl

/-- C10: natural keys are mutually comparable — every key alternates text
and digit runs beginning with a (possibly empty) text run, so comparing two
keys never compares an integer with a string — and the induced order is
total, so sorting never raises and is deterministic. -/
theorem natural_key_always_comparable (s t : String) :
    keyShape (natural_key s) true = true
    ∧ (∃ o, cmpKey (natural_key s) (natural_key t) = some o)
    ∧ (keyLeB s t = true ∨ keyLeB t s = true) :=
  ⟨keyShape_natural_key s, cmpKey_natural_key_isSome s t, keyLeB_total s t⟩

/-! ## JPEG normalization (`main.py`, `convert_to_jpegs`, lines 71-110)

Decoding/encoding is the external imaging capability; the model keeps what
the claims observe: the produced output file names (in order) and the
`on_step` callback events. -/

/-- Python `f"{i:05d}"`: decimal digits of `i`, zero-padded to width 5. -/
def pad5 (n : Nat) : String :=
  let s := Nat.repr n
  String.mk (List.replicate (5 - s.length) '0') ++ s

/-- One `on_step(cur, total, name)` callback invocation. -/
structure SubStep where
  cur : Nat
  tot : Nat
  name : String
deriving DecidableEq

/-- The loop of `convert_to_jpegs`: the item with 1-based index `i` emits
`on_step(i-1, total, name)` before and `on_step(i, total, name)` after
writing `f"{i:05d}.jpg"`. -/
def convertGo (total : Nat) : Nat → List String → List String × List SubStep
  | _, [] => ([], [])
  | i, img :: rest =>
    let res := convertGo total (i + 1) rest
    ((pad5 i ++ ".jpg") :: res.1,
      ⟨i - 1, total, img⟩ :: ⟨i, total, img⟩ :: res.2)

/-- Model of `convert_to_jpegs` in `main.py` (lines 71-110): output file names and
callback events for the given input image names. -/
def convert_to_jpegs (images : List String) : List String × List SubStep :=
  convertGo images.length 1 images

theorem convertGo_fst (total : Nat) :
    ∀ (imgs : List String) (i : Nat),
      (convertGo total i imgs).1
        = (List.range imgs.length).map (fun k => pad5 (i + k) ++ ".jpg") := by
  intro imgs
  induction imgs with
  | nil => intro i; simp [convertGo]
  | cons img rest ih =>
    intro i
    simp only [convertGo, List.length_cons]
    rw [List.range_succ_eq_map, List.map_cons, List.map_map]
    refine congrArg₂ List.cons (by simp) ?_
    rw [ih (i + 1)]
    refine List.map_congr_left ?_
    intro k _
    simp only [Function.comp]
    rw [show i + (k + 1) = i + 1 + k by omega]

/-- C4: for N input images with arbitrary names, the JPEG normalizer
produces exactly N outputs named by the 1-based 5-digit zero-padded
sequence index, in input order, with no gaps. -/
theorem convert_to_jpegs_names (images : List String) :
    (convert_to_jpegs images).1
      = (List.range images.length).map (fun k => pad5 (k + 1) ++ ".jpg")
    ∧ (convert_to_jpegs images).1.length = images.length
    ∧ (convert_to_jpegs ["cover.png", "b.webp", "a.tif"]).1
      = ["00001.jpg", "00002.jpg", "00003.jpg"] := by
  have h := convertGo_fst images.length images 1
  refine ⟨?_, ?_, rfl⟩
  · unfold convert_to_jpegs
    rw [h]
    refine List.map_congr_left ?_
    intro k _
    rw [show 1 + k = k + 1 by omega]
  · unfold convert_to_jpegs
    rw [h]
    simp

/-! ## Archive extraction (`main.py`, `run_7z_extract`, lines 49-59)

The external 7-Zip process is modelled by its observable outcome. -/

/-- Observable result of the external extraction process. -/
structure ProcResult where
  returncode : Int
  stdout : String
  stderr : String
deriving DecidableEq

/-- The message of the `RuntimeError` raised on a non-zero exit status. -/
def sevenZipErrorMsg (archive_path : String) (p : ProcResult) : String :=
  "7-Zip extraction failed.\n\nFile: " ++ archive_path ++ "\n\nSTDOUT:\n"
    ++ p.stdout ++ "\n\nSTDERR:\n" ++ p.stderr

/-- Model of `run_7z_extract` in `main.py` (lines 49-59): invoke
`[seven_zip, "x", "-y", "-aoa", "-bd", archive, "-o{out_dir}"]` and raise
iff the process reports a non-zero exit status. -/
def run_7z_extract (seven_zip archive_path out_dir : String)
    (p : ProcResult) : Except String Unit :=
  let _cmd := [seven_zip, "x", "-y", "-aoa", "-bd", archive_path, "-o" ++ out_dir]
  if p.returncode ≠ 0 then Except.error (sevenZipErrorMsg archive_path p)
  else Except.ok ()

/-- C6: the extractor raises exactly when the external tool reports a
non-zero exit status, returns normally on zero, and the raised message
carries the archive path and the captured stdout and stderr. -/
theorem run_7z_extract_spec (exe archive out : String) (p : ProcResult) :
    ((∃ m, run_7z_extract exe archive out p = Except.error m) ↔ p.returncode ≠ 0)
    ∧ (run_7z_extract exe archive out p = Except.ok () ↔ p.returncode = 0)
    ∧ (∀ m, run_7z_extract exe archive out p = Except.error m →
        ∃ pre mid1 mid2,
          m = pre ++ archive ++ mid1 ++ p.stdout ++ mid2 ++ p.stderr) := by
  by_cases h : p.returncode = 0
  · refine ⟨?_, ?_, ?_⟩
    · simp [run_7z_extract, h]
    · simp [run_7z_extract, h]
    · intro m hm
      simp [run_7z_extract, h] at hm
  · refine ⟨?_, ?_, ?_⟩
    · simp [run_7z_extract, h]
    · simp [run_7z_extract, h]
    · intro m hm
      simp only [run_7z_extract, if_pos h] at hm
      refine ⟨"7-Zip extraction failed.\n\nFile: ", "\n\nSTDOUT:\n", "\n\nSTDERR:\n", ?_⟩
      injection hm with h2
      rw [← h2]
      rfl

/-- Instantiation of `run_7z_extract_spec` at a concrete failing and a
concrete succeeding process result. -/
theorem run_7z_extract_spec_witness :
    (∃ m, run_7z_extract "7z" "a.cbz" "out" ⟨2, "so", "se"⟩ = Except.error m)
    ∧ run_7z_extract "7z" "b.cbz" "out" ⟨0, "", ""⟩ = Except.ok () :=
  ⟨(run_7z_extract_spec "7z" "a.cbz" "out" ⟨2, "so", "se"⟩).1.mpr (by decide),
    (run_7z_extract_spec "7z" "b.cbz" "out" ⟨0, "", ""⟩).2.1.mpr rfl⟩

/-! ## EPUB assembly (`main.py`, `build_epub_from_images`, lines 123-307)

The scratch tree written under the temporary directory is modelled as the
list of files in write order; the final `zipfile` packaging as the list of
archive entries with their per-entry compression choice (directory entries
created by the external `zipfile` capability are outside the model).
`book_id = str(uuid.uuid4())` is modelled by the externally supplied fresh
token `book_id`. -/

/-- Contents of a written file: literal text, or a byte-for-byte copy of a
source file (`shutil.copy`). -/
inductive FileData
  | text (s : String)
  | copyOf (src : String)
deriving DecidableEq

/-- Which write of `build_epub_from_images` produced an entry (a
transparent label on the writes; names and data are as in the source). -/
inductive EntryKind
  | mimetypeK
  | containerK
  | coverImg
  | coverPage
  | pageImg (p : Nat)
  | pageDoc (p : Nat)
  | navK
  | opfK
deriving DecidableEq

/-- A file of the scratch tree, relative to the temporary root. -/
structure TreeFile where
  kind : EntryKind
  name : String
  data : FileData
deriving DecidableEq

/-- An entry of the produced EPUB ZIP archive; `deflated = false` means
`ZIP_STORED`, `deflated = true` means `ZIP_DEFLATED`. -/
structure ZipEntry where
  kind : EntryKind
  name : String
  data : FileData
  deflated : Bool
deriving DecidableEq

/-- Model of `xml.sax.saxutils.escape`: `&`, `<`, `>` to entity references. -/
def xmlEscape (s : String) : String :=
  String.mk (s.data.flatMap (fun c =>
    if c = '&' then "&amp;".data
    else if c = '<' then "&lt;".data
    else if c = '>' then "&gt;".data
    else [c]))

/-- The text of `META-INF/container.xml` (lines 154-165). -/
def containerXml : String :=
  "<?xml version=\"1.0\" encoding=\"UTF-8\"?>\n<container version=\"1.0\"\n xmlns=\"urn:oasis:names:tc:opendocument:xmlns:container\">\n  <rootfiles>\n    <rootfile full-path=\"OEBPS/content.opf\"\n     media-type=\"application/oebps-package+xml\"/>\n  </rootfiles>\n</container>\n"

/-- The shared `<style>` block of the cover and page documents (literal
braces written as escapes). -/
def pageStyle : String :=
  "  <style>\n    body \x7b margin:0; padding:0; \x7d\n    img \x7b width:100%; height:auto; display:block; \x7d\n  </style>\n"

/-- The text of `cover.xhtml` (lines 186-203). -/
def coverXhtml (safe_title : String) : String :=
  "<?xml version=\"1.0\" encoding=\"utf-8\"?>\n<html xmlns=\"http://www.w3.org/1999/xhtml\">\n<head>\n  <title>"
    ++ safe_title
    ++ " - Cover</title>\n  <meta charset=\"utf-8\"/>\n"
    ++ pageStyle
    ++ "</head>\n<body>\n  <img src=\"images/cover.jpg\" alt=\"cover\"/>\n</body>\n</html>\n"

/-- The page document `page_{p:05d}.xhtml` (lines 221-238). -/
def pageXhtml (safe_title : String) (p : Nat) : String :=
  "<?xml version=\"1.0\" encoding=\"utf-8\"?>\n<html xmlns=\"http://www.w3.org/1999/xhtml\">\n<head>\n  <title>"
    ++ safe_title
    ++ "</title>\n  <meta charset=\"utf-8\"/>\n"
    ++ pageStyle
    ++ "</head>\n<body>\n  <img src=\"images/"
    ++ pad5 p
    ++ ".jpg\" alt=\"page "
    ++ Nat.repr p
    ++ "\"/>\n</body>\n</html>\n"

/-- The text of `nav.xhtml` (lines 253-271). -/
def navXhtml (start_href : String) : String :=
  "<?xml version=\"1.0\" encoding=\"utf-8\"?>\n<html xmlns=\"http://www.w3.org/1999/xhtml\"\n      xmlns:epub=\"http://www.idpf.org/2007/ops\">\n<head>\n  <meta charset=\"utf-8\"/>\n  <title>Navigation</title>\n</head>\n<body>\n<nav epub:type=\"toc\">\n  <ol>\n    <li><a href=\""
    ++ start_href
    ++ "\">Start</a></li>\n  </ol>\n</nav>\n</body>\n</html>\n"

/-- Text of `content.opf` up to and including `<dc:identifier id="uid">`
(lines 280-287); the title appears only here. -/
def opfHead (safe_title : String) : String :=
  "<?xml version=\"1.0\" encoding=\"utf-8\"?>\n<package version=\"3.0\"\n xmlns=\"http://www.idpf.org/2007/opf\"\n unique-identifier=\"uid\">\n  <metadata xmlns:dc=\"http://purl.org/dc/elements/1.1/\">\n    <dc:title>"
    ++ safe_title
    ++ "</dc:title>\n    <dc:language>en</dc:language>\n    <dc:identifier id=\"uid\">"

/-- Text of `content.opf` after the identifier (lines 287-297); independent of the
title and of the identifier. -/
def opfTail (cover_meta manifest_joined spine_joined : String) : String :=
  "</dc:identifier>"
    ++ cover_meta
    ++ "\n  </metadata>\n  <manifest>\n    <item id=\"nav\" href=\"nav.xhtml\" media-type=\"application/xhtml+xml\" properties=\"nav\"/>\n    "
    ++ manifest_joined
    ++ "\n  </manifest>\n  <spine>\n    "
    ++ spine_joined
    ++ "\n  </spine>\n</package>\n"

/-- Text of `content.opf` in `main.py` (lines 279-299): the identifier element
carries `book_id`, the freshly generated token. -/
def content_opf (safe_title book_id cover_meta manifest_joined spine_joined : String) : String :=
  opfHead safe_title ++ book_id ++ opfTail cover_meta manifest_joined spine_joined

/-- Text of `content.opf` in the earlier variant `ComixConvert.py` (lines 230-250):
identical template, but the identifier element carries `safe_title`
itself — there is no fresh token in that variant. -/
def CC_content_opf (title cover_meta manifest_joined spine_joined : String) : String :=
  opfHead (xmlEscape title) ++ xmlEscape title
    ++ opfTail cover_meta manifest_joined spine_joined

/-- Manifest item for the cover image (line 182). -/
def coverImgManifestItem : String :=
  "<item id=\"coverimg\" href=\"images/cover.jpg\" media-type=\"image/jpeg\" properties=\"cover-image\"/>"

/-- Manifest item for the cover page (lines 205-207). -/
def coverPageManifestItem : String :=
  "<item id=\"coverpage\" href=\"cover.xhtml\" media-type=\"application/xhtml+xml\"/>"

/-- Spine item for the cover page (line 208). -/
def coverSpineItem : String := "<itemref idref=\"coverpage\"/>"

/-- Manifest item for page image `p` (lines 240-242). -/
def imgManifestItem (p : Nat) : String :=
  "<item id=\"img" ++ Nat.repr p ++ "\" href=\"images/" ++ pad5 p
    ++ ".jpg\" media-type=\"image/jpeg\"/>"

/-- Manifest item for page document `p` (lines 243-245). -/
def pageManifestItem (p : Nat) : String :=
  "<item id=\"page" ++ Nat.repr p ++ "\" href=\"page_" ++ pad5 p
    ++ ".xhtml\" media-type=\"application/xhtml+xml\"/>"

/-- Spine item for page `p` (line 246). -/
def pageSpineItem (p : Nat) : String :=
  "<itemref idref=\"page" ++ Nat.repr p ++ "\"/>"

/-- The page loop (lines 210-248): `src_idx` runs from `start_idx` to
`len(jpegs)`, and the page with (1-based) number `p = src_idx - start_idx + 1`
copies `jpegs[src_idx - 1]` to `images/{p:05d}.jpg` and writes
`page_{p:05d}.xhtml`. -/
def pageFiles (jpegs : List String) (start_idx : Nat) (safe_title : String) : List TreeFile :=
  (List.range (jpegs.length + 1 - start_idx)).flatMap (fun k =>
    [⟨EntryKind.pageImg (k + 1), "OEBPS/images/" ++ pad5 (k + 1) ++ ".jpg",
       FileData.copyOf (jpegs.getD (start_idx + k - 1) "")⟩,
     ⟨EntryKind.pageDoc (k + 1), "OEBPS/page_" ++ pad5 (k + 1) ++ ".xhtml",
       FileData.text (pageXhtml safe_title (k + 1))⟩])

/-- Manifest items produced by the page loop. -/
def pageManifestList (count : Nat) : List String :=
  (List.range count).flatMap (fun k => [imgManifestItem (k + 1), pageManifestItem (k + 1)])

/-- Spine items produced by the page loop. -/
def pageSpineList (count : Nat) : List String :=
  (List.range count).map (fun k => pageSpineItem (k + 1))

/-- The final `zipfile` packaging (lines 301-307): the `mimetype` file is
written first with `ZIP_STORED`; every other file of the tree follows with
`ZIP_DEFLATED`, skipping any file named `mimetype`. -/
def zipTree (tree : List TreeFile) : List ZipEntry :=
  let mimeData := ((tree.find? (fun f => f.name == "mimetype")).map TreeFile.data).getD
    (FileData.text "")
  ⟨EntryKind.mimetypeK, "mimetype", mimeData, false⟩ ::
    (tree.filter (fun f => !(f.name == "mimetype"))).map
      (fun f => ⟨f.kind, f.name, f.data, true⟩)

/-- Model of `build_epub_from_images` in `main.py` (lines 123-307): rejects an empty
image list and otherwise produces the archive entry list. -/
def build_epub_from_images (jpegs : List String) (title : String) (book_id : String)
    (use_first_image_as_cover : Bool) (skip_cover_in_pages : Bool) :
    Except String (List ZipEntry) :=
  if jpegs.isEmpty then Except.error "EPUB build: no images provided."
  else
    let safe_title := xmlEscape title
    let coverFiles : List TreeFile :=
      if use_first_image_as_cover then
        [⟨EntryKind.coverImg, "OEBPS/images/cover.jpg", FileData.copyOf (jpegs.headD "")⟩,
         ⟨EntryKind.coverPage, "OEBPS/cover.xhtml", FileData.text (coverXhtml safe_title)⟩]
      else []
    let start_idx := if use_first_image_as_cover && skip_cover_in_pages then 2 else 1
    let count := jpegs.length + 1 - start_idx
    let manifest_items :=
      (if use_first_image_as_cover then [coverImgManifestItem, coverPageManifestItem] else [])
        ++ pageManifestList count
    let spine_items :=
      (if use_first_image_as_cover then [coverSpineItem] else []) ++ pageSpineList count
    let start_href := if use_first_image_as_cover then "cover.xhtml" else "page_00001.xhtml"
    let cover_meta :=
      if use_first_image_as_cover then "\n    <meta name=\"cover\" content=\"coverimg\"/>"
      else ""
    let tree : List TreeFile :=
      ⟨EntryKind.mimetypeK, "mimetype", FileData.text "application/epub+zip"⟩ ::
      ⟨EntryKind.containerK, "META-INF/container.xml", FileData.text containerXml⟩ ::
      (coverFiles ++ pageFiles jpegs start_idx safe_title ++
        [⟨EntryKind.navK, "OEBPS/nav.xhtml", FileData.text (navXhtml start_href)⟩,
         ⟨EntryKind.opfK, "OEBPS/content.opf",
           FileData.text (content_opf safe_title book_id cover_meta
             (String.join manifest_items) (String.join spine_items))⟩])
    Except.ok (zipTree tree)

/-- C9: when `use_first_image_as_cover` is false, the
`skip_cover_in_pages` flag has no effect on the produced EPUB. -/
theorem epub_skip_flag_inert (jpegs : List String) (title book_id : String) :
    build_epub_from_images jpegs title book_id false true
      = build_epub_from_images jpegs title book_id false false := rfl

/-- Instantiation of `epub_skip_flag_inert` at a concrete build. -/
theorem epub_skip_flag_inert_witness :
    build_epub_from_images ["00001.jpg", "00002.jpg"] "T" "id-1" false true
      = build_epub_from_images ["00001.jpg", "00002.jpg"] "T" "id-1" false false :=
  epub_skip_flag_inert ["00001.jpg", "00002.jpg"] "T" "id-1"

theorem zipTree_cons_mime (d : FileData) (t : List TreeFile) :
    zipTree (⟨EntryKind.mimetypeK, "mimetype", d⟩ :: t)
      = ⟨EntryKind.mimetypeK, "mimetype", d, false⟩ ::
        (t.filter (fun f => !(f.name == "mimetype"))).map
          (fun f => ⟨f.kind, f.name, f.data, true⟩) := by
  unfold zipTree
  simp [List.find?_cons, List.filter_cons]

/-- C5: the archive of any non-empty build starts with an entry named
exactly `mimetype`, stored without compression, with content exactly
`application/epub+zip`; every following entry is deflate-compressed and is
not named `mimetype`. -/
theorem epub_mimetype_first (j : String) (js : List String) (title book_id : String)
    (cover skip : Bool) :
    ∃ rest, build_epub_from_images (j :: js) title book_id cover skip
        = Except.ok (⟨EntryKind.mimetypeK, "mimetype",
            FileData.text "application/epub+zip", false⟩ :: rest)
      ∧ ∀ e ∈ rest, e.deflated = true ∧ e.name ≠ "mimetype" := by
  rw [build_epub_from_images]
  simp only [List.isEmpty_cons, Bool.false_eq_true, if_false, ite_false]
  rw [zipTree_cons_mime]
  refine ⟨_, rfl, ?_⟩
  intro e he
  rcases List.mem_map.mp he with ⟨f, hf, rfl⟩
  refine ⟨rfl, ?_⟩
  have hq := (List.mem_filter.mp hf).2
  simpa using hq

/-- Instantiation of `epub_mimetype_first` at a concrete build. -/
theorem epub_mimetype_first_witness :
    ∃ rest, build_epub_from_images ["00001.jpg"] "T" "id-1" true true
        = Except.ok (⟨EntryKind.mimetypeK, "mimetype",
            FileData.text "application/epub+zip", false⟩ :: rest)
      ∧ ∀ e ∈ rest, e.deflated = true ∧ e.name ≠ "mimetype" :=
  epub_mimetype_first "00001.jpg" [] "T" "id-1" true true

/-! ### Page documents and page images of a build -/

/-- Select the name of a page-document entry. -/
def docSel (e : ZipEntry) : Option String :=
  match e.kind with
  | EntryKind.pageDoc _ => some e.name
  | _ => none

/-- The page-document names of an archive, in entry order. -/
def pageDocNames (entries : List ZipEntry) : List String := entries.filterMap docSel

/-- Select the name and data of a numbered page-image entry. -/
def imgSel (e : ZipEntry) : Option (String × FileData) :=
  match e.kind with
  | EntryKind.pageImg _ => some (e.name, e.data)
  | _ => none

/-- The numbered page images of an archive (name and copied source). -/
def pageImgFiles (entries : List ZipEntry) : List (String × FileData) :=
  entries.filterMap imgSel

/-- Page-document selector at the tree level. -/
def treeDocSel (f : TreeFile) : Option String :=
  match f.kind with
  | EntryKind.pageDoc _ => some f.name
  | _ => none

/-- Page-image selector at the tree level. -/
def treeImgSel (f : TreeFile) : Option (String × FileData) :=
  match f.kind with
  | EntryKind.pageImg _ => some (f.name, f.data)
  | _ => none

theorem filterMap_filter_aux {α β : Type} (g : α → Option β) (q : α → Bool) :
    ∀ l : List α, (l.filter q).filterMap g
      = l.filterMap (fun a => if q a then g a else none) := by
  intro l
  induction l with
  | nil => rfl
  | cons a l ih =>
    by_cases h : q a = true
    · simp only [List.filter_cons, h, if_true, ite_true, List.filterMap_cons, ih]
    · have h2 : q a = false := by
        cases hqa : q a
        · rfl
        · exact absurd hqa h
      simp only [List.filter_cons, h2, Bool.false_eq_true, if_false, ite_false,
        List.filterMap_cons, ih]

theorem filterMap_flatMap_aux {α β γ : Type} (g : β → Option γ) (f : α → List β) :
    ∀ l : List α, (l.flatMap f).filterMap g = l.flatMap (fun a => (f a).filterMap g) := by
  intro l
  induction l with
  | nil => rfl
  | cons a l ih => simp [List.flatMap_cons, List.filterMap_append, ih]

theorem flatMap_singleton_aux {α β : Type} (g : α → β) :
    ∀ l : List α, (l.flatMap (fun a => [g a])) = l.map g := by
  intro l
  induction l with
  | nil => rfl
  | cons a l ih => simp [List.flatMap_cons, ih]

theorem append_append_ne_mimetype (a b c : String) (h9 : 9 ≤ a.length) :
    a ++ b ++ c ≠ "mimetype" := by
  intro he
  have hl := congrArg String.length he
  rw [String.length_append, String.length_append] at hl
  have h8 : ("mimetype" : String).length = 8 := rfl
  omega

theorem pageImg_name_ne_mimetype (k : Nat) :
    "OEBPS/images/" ++ pad5 (k + 1) ++ ".jpg" ≠ "mimetype" :=
  append_append_ne_mimetype _ _ _ (by decide)

theorem pageDoc_name_ne_mimetype (k : Nat) :
    "OEBPS/page_" ++ pad5 (k + 1) ++ ".xhtml" ≠ "mimetype" :=
  append_append_ne_mimetype _ _ _ (by decide)

theorem pageFiles_docNames (jpegs : List String) (start : Nat) (safe_title : String) :
    (pageFiles jpegs start safe_title).filterMap
        (fun f => if !(f.name == "mimetype") then treeDocSel f else none)
      = (List.range (jpegs.length + 1 - start)).map
          (fun k => "OEBPS/page_" ++ pad5 (k + 1) ++ ".xhtml") := by
  unfold pageFiles
  rw [filterMap_flatMap_aux]
  rw [show (fun k => (([⟨EntryKind.pageImg (k + 1), "OEBPS/images/" ++ pad5 (k + 1) ++ ".jpg",
        FileData.copyOf (jpegs.getD (start + k - 1) "")⟩,
      ⟨EntryKind.pageDoc (k + 1), "OEBPS/page_" ++ pad5 (k + 1) ++ ".xhtml",
        FileData.text (pageXhtml safe_title (k + 1))⟩] : List TreeFile).filterMap
          (fun f => if !(f.name == "mimetype") then treeDocSel f else none)))
      = fun k => (["OEBPS/page_" ++ pad5 (k + 1) ++ ".xhtml"] : List String) from
    funext (fun k => by
      simp [List.filterMap_cons, treeDocSel, pageDoc_name_ne_mimetype k])]
  exact flatMap_singleton_aux _ _

theorem pageFiles_imgFiles (jpegs : List String) (start : Nat) (safe_title : String) :
    (pageFiles jpegs start safe_title).filterMap
        (fun f => if !(f.name == "mimetype") then treeImgSel f else none)
      = (List.range (jpegs.length + 1 - start)).map
          (fun k => ("OEBPS/images/" ++ pad5 (k + 1) ++ ".jpg",
            FileData.copyOf (jpegs.getD (start + k - 1) ""))) := by
  unfold pageFiles
  rw [filterMap_flatMap_aux]
  rw [show (fun k => (([⟨EntryKind.pageImg (k + 1), "OEBPS/images/" ++ pad5 (k + 1) ++ ".jpg",
        FileData.copyOf (jpegs.getD (start + k - 1) "")⟩,
      ⟨EntryKind.pageDoc (k + 1), "OEBPS/page_" ++ pad5 (k + 1) ++ ".xhtml",
        FileData.text (pageXhtml safe_title (k + 1))⟩] : List TreeFile).filterMap
          (fun f => if !(f.name == "mimetype") then treeImgSel f else none)))
      = fun k => ([("OEBPS/images/" ++ pad5 (k + 1) ++ ".jpg",
          FileData.copyOf (jpegs.getD (start + k - 1) ""))] : List (String × FileData)) from
    funext (fun k => by
      simp [List.filterMap_cons, treeImgSel, pageImg_name_ne_mimetype k])]
  exact flatMap_singleton_aux _ _


theorem filterMap_cons_none {α β : Type} (g : α → Option β) (a : α) (l : List α)
    (h : g a = none) : (a :: l).filterMap g = l.filterMap g := by
  simp [List.filterMap_cons, h]

theorem pageFiles_not_mimetype (jpegs : List String) (start : Nat) (safe : String) :
    ∀ f ∈ pageFiles jpegs start safe, (!(f.name == "mimetype")) = true := by
  intro f hf
  rcases List.mem_flatMap.mp hf with ⟨k, _, hmem⟩
  rcases List.mem_cons.mp hmem with rfl | hmem
  · simp [pageImg_name_ne_mimetype k]
  rcases List.mem_cons.mp hmem with rfl | hmem
  · simp [pageDoc_name_ne_mimetype k]
  · simp at hmem

theorem tree_filter_all (coverF : List TreeFile)
    (hcov : ∀ f ∈ coverF, (!(f.name == "mimetype")) = true)
    (jpegs : List String) (start : Nat) (safe : String) (navD opfD : FileData) :
    ((⟨EntryKind.containerK, "META-INF/container.xml", FileData.text containerXml⟩ :: (coverF
        ++ pageFiles jpegs start safe
          ++ [⟨EntryKind.navK, "OEBPS/nav.xhtml", navD⟩,
              ⟨EntryKind.opfK, "OEBPS/content.opf", opfD⟩])) : List TreeFile).filter
        (fun f => !(f.name == "mimetype"))
      = ⟨EntryKind.containerK, "META-INF/container.xml", FileData.text containerXml⟩ :: (coverF
          ++ pageFiles jpegs start safe
            ++ [⟨EntryKind.navK, "OEBPS/nav.xhtml", navD⟩,
                ⟨EntryKind.opfK, "OEBPS/content.opf", opfD⟩]) := by
  rw [List.filter_eq_self]
  intro f hf
  rcases List.mem_cons.mp hf with rfl | hf
  · decide
  rcases List.mem_append.mp hf with hf | hf
  · rcases List.mem_append.mp hf with hf | hf
    · exact hcov f hf
    · exact pageFiles_not_mimetype jpegs start safe f hf
  rcases List.mem_cons.mp hf with rfl | hf
  · show (!("OEBPS/nav.xhtml" == "mimetype")) = true
    decide
  rcases List.mem_cons.mp hf with rfl | hf
  · show (!("OEBPS/content.opf" == "mimetype")) = true
    decide
  · simp at hf

theorem pageFiles_filterMap_doc (jpegs : List String) (start : Nat) (safe_title : String) :
    (pageFiles jpegs start safe_title).filterMap treeDocSel
      = (List.range (jpegs.length + 1 - start)).map
          (fun k => "OEBPS/page_" ++ pad5 (k + 1) ++ ".xhtml") := by
  unfold pageFiles
  rw [filterMap_flatMap_aux]
  rw [show (fun k => (([⟨EntryKind.pageImg (k + 1), "OEBPS/images/" ++ pad5 (k + 1) ++ ".jpg",
        FileData.copyOf (jpegs.getD (start + k - 1) "")⟩,
      ⟨EntryKind.pageDoc (k + 1), "OEBPS/page_" ++ pad5 (k + 1) ++ ".xhtml",
        FileData.text (pageXhtml safe_title (k + 1))⟩] : List TreeFile).filterMap treeDocSel))
      = fun k => (["OEBPS/page_" ++ pad5 (k + 1) ++ ".xhtml"] : List String) from
    funext (fun k => rfl)]
  exact flatMap_singleton_aux _ _

theorem pageFiles_filterMap_img (jpegs : List String) (start : Nat) (safe_title : String) :
    (pageFiles jpegs start safe_title).filterMap treeImgSel
      = (List.range (jpegs.length + 1 - start)).map
          (fun k => ("OEBPS/images/" ++ pad5 (k + 1) ++ ".jpg",
            FileData.copyOf (jpegs.getD (start + k - 1) ""))) := by
  unfold pageFiles
  rw [filterMap_flatMap_aux]
  rw [show (fun k => (([⟨EntryKind.pageImg (k + 1), "OEBPS/images/" ++ pad5 (k + 1) ++ ".jpg",
        FileData.copyOf (jpegs.getD (start + k - 1) "")⟩,
      ⟨EntryKind.pageDoc (k + 1), "OEBPS/page_" ++ pad5 (k + 1) ++ ".xhtml",
        FileData.text (pageXhtml safe_title (k + 1))⟩] : List TreeFile).filterMap treeImgSel))
      = fun k => ([("OEBPS/images/" ++ pad5 (k + 1) ++ ".jpg",
          FileData.copyOf (jpegs.getD (start + k - 1) ""))] : List (String × FileData)) from
    funext (fun k => rfl)]
  exact flatMap_singleton_aux _ _

theorem pageDocNames_cons_mime (d : FileData) (rest : List ZipEntry) :
    pageDocNames (⟨EntryKind.mimetypeK, "mimetype", d, false⟩ :: rest)
      = pageDocNames rest := rfl

theorem pageImgFiles_cons_mime (d : FileData) (rest : List ZipEntry) :
    pageImgFiles (⟨EntryKind.mimetypeK, "mimetype", d, false⟩ :: rest)
      = pageImgFiles rest := rfl

theorem build_shape_compute (coverF : List TreeFile)
    (hcovq : ∀ f ∈ coverF, (!(f.name == "mimetype")) = true)
    (hcovdoc : coverF.filterMap treeDocSel = [])
    (hcovimg : coverF.filterMap treeImgSel = [])
    (jpegs : List String) (start : Nat) {safe : String} {navD opfD : FileData} :
    pageDocNames (zipTree
        (⟨EntryKind.mimetypeK, "mimetype", FileData.text "application/epub+zip"⟩ ::
          ⟨EntryKind.containerK, "META-INF/container.xml", FileData.text containerXml⟩ :: (coverF
            ++ pageFiles jpegs start safe
              ++ [⟨EntryKind.navK, "OEBPS/nav.xhtml", navD⟩,
                  ⟨EntryKind.opfK, "OEBPS/content.opf", opfD⟩])))
      = (List.range (jpegs.length + 1 - start)).map
          (fun k => "OEBPS/page_" ++ pad5 (k + 1) ++ ".xhtml")
    ∧ pageImgFiles (zipTree
        (⟨EntryKind.mimetypeK, "mimetype", FileData.text "application/epub+zip"⟩ ::
          ⟨EntryKind.containerK, "META-INF/container.xml", FileData.text containerXml⟩ :: (coverF
            ++ pageFiles jpegs start safe
              ++ [⟨EntryKind.navK, "OEBPS/nav.xhtml", navD⟩,
                  ⟨EntryKind.opfK, "OEBPS/content.opf", opfD⟩])))
      = (List.range (jpegs.length + 1 - start)).map
          (fun k => ("OEBPS/images/" ++ pad5 (k + 1) ++ ".jpg",
            FileData.copyOf (jpegs.getD (start + k - 1) ""))) := by
  rw [zipTree_cons_mime]
  rw [tree_filter_all coverF hcovq jpegs start safe navD opfD]
  constructor
  · rw [pageDocNames_cons_mime]
    unfold pageDocNames
    rw [List.filterMap_map,
      show (docSel ∘ fun f : TreeFile => ZipEntry.mk f.kind f.name f.data true)
        = treeDocSel from funext fun f => rfl,
      filterMap_cons_none _ _ _ rfl, List.filterMap_append, List.filterMap_append, hcovdoc,
      pageFiles_filterMap_doc,
      filterMap_cons_none _ _ _ rfl, filterMap_cons_none _ _ _ rfl]
    simp
  · rw [pageImgFiles_cons_mime]
    unfold pageImgFiles
    rw [List.filterMap_map,
      show (imgSel ∘ fun f : TreeFile => ZipEntry.mk f.kind f.name f.data true)
        = treeImgSel from funext fun f => rfl,
      filterMap_cons_none _ _ _ rfl, List.filterMap_append, List.filterMap_append, hcovimg,
      pageFiles_filterMap_img,
      filterMap_cons_none _ _ _ rfl, filterMap_cons_none _ _ _ rfl]
    simp

theorem coverFiles_not_mimetype (src : String) (safe : String) :
    ∀ f ∈ ([⟨EntryKind.coverImg, "OEBPS/images/cover.jpg", FileData.copyOf src⟩,
            ⟨EntryKind.coverPage, "OEBPS/cover.xhtml", FileData.text (coverXhtml safe)⟩]
        : List TreeFile),
      (!(f.name == "mimetype")) = true := by
  intro f hf
  rcases List.mem_cons.mp hf with rfl | hf
  · show (!("OEBPS/images/cover.jpg" == "mimetype")) = true
    decide
  rcases List.mem_cons.mp hf with rfl | hf
  · show (!("OEBPS/cover.xhtml" == "mimetype")) = true
    decide
  · simp at hf

/-- C2: for a non-empty JPEG sequence of length N the build produces N
content pages when the two flags are not both set, and N − 1 when both
`use-cover` and `skip-cover-as-page` are set (so N = 1 with both flags
yields a cover-only book with zero content pages); the remaining pages and
their image files are renumbered contiguously starting at 1, page p copying
the source image at 0-based index `start_idx + p - 2` where `start_idx` is
2 with both flags and 1 otherwise. -/
theorem epub_page_count (j : String) (js : List String) (title book_id : String)
    (cover skip : Bool) :
    ∃ entries,
      build_epub_from_images (j :: js) title book_id cover skip = Except.ok entries
      ∧ pageDocNames entries
          = (List.range (if cover && skip then (j :: js).length - 1 else (j :: js).length)).map
              (fun k => "OEBPS/page_" ++ pad5 (k + 1) ++ ".xhtml")
      ∧ pageImgFiles entries
          = (List.range (if cover && skip then (j :: js).length - 1 else (j :: js).length)).map
              (fun k => ("OEBPS/images/" ++ pad5 (k + 1) ++ ".jpg",
                FileData.copyOf ((j :: js).getD ((if cover && skip then 2 else 1) + k - 1) "")))
      ∧ (pageDocNames entries).length
          = (if cover && skip then (j :: js).length - 1 else (j :: js).length) := by
  cases cover <;> cases skip
  · rw [build_epub_from_images]
    simp only [List.isEmpty_cons, Bool.false_eq_true, if_false, ite_false, Bool.and_self]
    refine ⟨_, rfl, ?_, ?_, ?_⟩
    · rw [(build_shape_compute [] (by intro f hf; simp at hf) rfl rfl (j :: js) 1).1,
        Nat.add_sub_cancel]
    · rw [(build_shape_compute [] (by intro f hf; simp at hf) rfl rfl (j :: js) 1).2,
        Nat.add_sub_cancel]
    · rw [(build_shape_compute [] (by intro f hf; simp at hf) rfl rfl (j :: js) 1).1]
      simp
  · rw [build_epub_from_images]
    simp only [List.isEmpty_cons, Bool.false_eq_true, if_false, ite_false, Bool.false_and]
    refine ⟨_, rfl, ?_, ?_, ?_⟩
    · rw [(build_shape_compute [] (by intro f hf; simp at hf) rfl rfl (j :: js) 1).1,
        Nat.add_sub_cancel]
    · rw [(build_shape_compute [] (by intro f hf; simp at hf) rfl rfl (j :: js) 1).2,
        Nat.add_sub_cancel]
    · rw [(build_shape_compute [] (by intro f hf; simp at hf) rfl rfl (j :: js) 1).1]
      simp
  · rw [build_epub_from_images]
    simp only [List.isEmpty_cons, Bool.false_eq_true, if_false, ite_false, Bool.and_false,
      eq_self_iff_true, if_true, ite_true]
    refine ⟨_, rfl, ?_, ?_, ?_⟩
    · rw [(build_shape_compute _ (coverFiles_not_mimetype _ _) rfl rfl (j :: js) 1).1,
        Nat.add_sub_cancel]
    · rw [(build_shape_compute _ (coverFiles_not_mimetype _ _) rfl rfl (j :: js) 1).2,
        Nat.add_sub_cancel]
    · rw [(build_shape_compute _ (coverFiles_not_mimetype _ _) rfl rfl (j :: js) 1).1]
      simp
  · rw [build_epub_from_images]
    simp only [List.isEmpty_cons, Bool.false_eq_true, if_false, ite_false, Bool.and_self,
      eq_self_iff_true, if_true, ite_true]
    refine ⟨_, rfl, ?_, ?_, ?_⟩
    · rw [(build_shape_compute _ (coverFiles_not_mimetype _ _) rfl rfl (j :: js) 2).1,
        show (j :: js).length + 1 - 2 = (j :: js).length - 1 from by omega]
    · rw [(build_shape_compute _ (coverFiles_not_mimetype _ _) rfl rfl (j :: js) 2).2,
        show (j :: js).length + 1 - 2 = (j :: js).length - 1 from by omega]
    · rw [(build_shape_compute _ (coverFiles_not_mimetype _ _) rfl rfl (j :: js) 2).1]
      simp

/-- Instantiation of `epub_page_count` at a concrete two-image build with
both flags set: one content page. -/
theorem epub_page_count_witness :
    ∃ entries,
      build_epub_from_images ["00001.jpg", "00002.jpg"] "T" "id-1" true true
        = Except.ok entries
      ∧ pageDocNames entries
          = (List.range (["00001.jpg", "00002.jpg"].length - 1)).map
              (fun k => "OEBPS/page_" ++ pad5 (k + 1) ++ ".xhtml")
      ∧ pageImgFiles entries
          = (List.range (["00001.jpg", "00002.jpg"].length - 1)).map
              (fun k => ("OEBPS/images/" ++ pad5 (k + 1) ++ ".jpg",
                FileData.copyOf (["00001.jpg", "00002.jpg"].getD (2 + k - 1) "")))
      ∧ (pageDocNames entries).length = ["00001.jpg", "00002.jpg"].length - 1 := by
  have h := epub_page_count "00001.jpg" ["00002.jpg"] "T" "id-1" true true
  simpa using h

/-! ### The package-document identifier -/

/-- Is this archive entry the package document? -/
def isOpfEntry (e : ZipEntry) : Bool :=
  match e.kind with
  | EntryKind.opfK => true
  | _ => false

/-- The text of the package document of an archive, when present. -/
def opfTextOf (entries : List ZipEntry) : Option String :=
  match entries.find? isOpfEntry with
  | some e =>
    match e.data with
    | FileData.text s => some s
    | FileData.copyOf _ => none
  | none => none

theorem find?_append_left_none {α : Type} (p : α → Bool) :
    ∀ l1 l2 : List α, (∀ a ∈ l1, p a = false) →
      List.find? p (l1 ++ l2) = List.find? p l2 := by
  intro l1
  induction l1 with
  | nil => intro l2 _; rfl
  | cons a l ih =>
    intro l2 h
    have ha : p a = false := h a (List.mem_cons_self a l)
    rw [List.cons_append, List.find?_cons_of_neg _ (by simp [ha])]
    exact ih l2 (fun b hb => h b (List.mem_cons_of_mem a hb))

theorem build_opfText (coverF : List TreeFile)
    (hcovq : ∀ f ∈ coverF, (!(f.name == "mimetype")) = true)
    (hcovopf : ∀ f ∈ coverF,
      isOpfEntry ⟨f.kind, f.name, f.data, true⟩ = false)
    (jpegs : List String) (start : Nat) {safe : String} {navD : FileData}
    (opfText : String) :
    opfTextOf (zipTree
        (⟨EntryKind.mimetypeK, "mimetype", FileData.text "application/epub+zip"⟩ ::
          ⟨EntryKind.containerK, "META-INF/container.xml", FileData.text containerXml⟩ ::
            (coverF ++ pageFiles jpegs start safe
              ++ [⟨EntryKind.navK, "OEBPS/nav.xhtml", navD⟩,
                  ⟨EntryKind.opfK, "OEBPS/content.opf", FileData.text opfText⟩])))
      = some opfText := by
  rw [zipTree_cons_mime,
    tree_filter_all coverF hcovq jpegs start safe navD (FileData.text opfText)]
  unfold opfTextOf
  simp only [List.map_cons, List.map_append]
  rw [List.find?_cons_of_neg _ (by simp [isOpfEntry]),
    List.find?_cons_of_neg _ (by simp [isOpfEntry]),
    find?_append_left_none isOpfEntry _ _ ?side,
    List.find?_cons_of_neg _ (by simp [isOpfEntry]),
    List.find?_cons_of_pos _ (by simp [isOpfEntry])]
  case side =>
    intro e he
    rcases List.mem_append.mp he with he | he
    · rcases List.mem_map.mp he with ⟨f, hf, rfl⟩
      exact hcovopf f hf
    · rcases List.mem_map.mp he with ⟨f, hf, rfl⟩
      rcases List.mem_flatMap.mp hf with ⟨k, _, hmem⟩
      rcases List.mem_cons.mp hmem with rfl | hmem
      · rfl
      rcases List.mem_cons.mp hmem with rfl | hmem
      · rfl
      · simp at hmem

theorem coverFiles_not_opf (src : String) (safe : String) :
    ∀ f ∈ ([⟨EntryKind.coverImg, "OEBPS/images/cover.jpg", FileData.copyOf src⟩,
            ⟨EntryKind.coverPage, "OEBPS/cover.xhtml", FileData.text (coverXhtml safe)⟩]
        : List TreeFile),
      isOpfEntry ⟨f.kind, f.name, f.data, true⟩ = false := by
  intro f hf
  rcases List.mem_cons.mp hf with rfl | hf
  · rfl
  rcases List.mem_cons.mp hf with rfl | hf
  · rfl
  · simp at hf

/-- C7 (amended): in `main.py` the identifier written into the package
document is exactly the externally generated fresh token (`uuid.uuid4()`),
and everything after the identifier element is independent of both the
title and the token — so identifiers are independent of the title and are
distinct across two builds exactly when their fresh tokens are. -/
theorem epub_identifier_fresh_token (j : String) (js : List String) (cover skip : Bool) :
    ∃ tail, ∀ title book_id : String,
      ∃ entries,
        build_epub_from_images (j :: js) title book_id cover skip = Except.ok entries
        ∧ opfTextOf entries = some (opfHead (xmlEscape title) ++ book_id ++ tail) := by
  refine ⟨opfTail
    (if cover then "\n    <meta name=\"cover\" content=\"coverimg\"/>" else "")
    (String.join ((if cover then [coverImgManifestItem, coverPageManifestItem] else [])
      ++ pageManifestList ((j :: js).length + 1 - (if cover && skip then 2 else 1))))
    (String.join ((if cover then [coverSpineItem] else [])
      ++ pageSpineList ((j :: js).length + 1 - (if cover && skip then 2 else 1)))), ?_⟩
  intro title book_id
  cases cover <;> cases skip
  · rw [build_epub_from_images]
    simp only [List.isEmpty_cons, Bool.false_eq_true, if_false, ite_false, Bool.and_self]
    exact ⟨_, rfl, build_opfText [] (by intro f hf; simp at hf)
      (by intro f hf; simp at hf) (j :: js) 1 _⟩
  · rw [build_epub_from_images]
    simp only [List.isEmpty_cons, Bool.false_eq_true, if_false, ite_false, Bool.false_and]
    exact ⟨_, rfl, build_opfText [] (by intro f hf; simp at hf)
      (by intro f hf; simp at hf) (j :: js) 1 _⟩
  · rw [build_epub_from_images]
    simp only [List.isEmpty_cons, Bool.false_eq_true, if_false, ite_false, Bool.and_false,
      eq_self_iff_true, if_true, ite_true]
    exact ⟨_, rfl, build_opfText _ (coverFiles_not_mimetype _ _)
      (coverFiles_not_opf _ _) (j :: js) 1 _⟩
  · rw [build_epub_from_images]
    simp only [List.isEmpty_cons, Bool.false_eq_true, if_false, ite_false, Bool.and_self,
      eq_self_iff_true, if_true, ite_true]
    exact ⟨_, rfl, build_opfText _ (coverFiles_not_mimetype _ _)
      (coverFiles_not_opf _ _) (j :: js) 2 _⟩

/-- Instantiation of `epub_identifier_fresh_token` at a concrete build. -/
theorem epub_identifier_fresh_token_witness :
    ∃ tail, ∀ title book_id : String,
      ∃ entries,
        build_epub_from_images ["00001.jpg"] title book_id true true = Except.ok entries
        ∧ opfTextOf entries = some (opfHead (xmlEscape title) ++ book_id ++ tail) :=
  epub_identifier_fresh_token "00001.jpg" [] true true

set_option maxRecDepth 40000 in
/-- C7 counterexample: in the earlier variant `ComixConvert.py` (line 238)
the identifier element of the package document carries the XML-escaped
title itself.  The identifier is therefore derived from the title (builds
with different titles write different identifiers exactly because the title
differs), and — the builder having no source of freshness — two builds with
the same title write the identical package document, identifier included,
contradicting the claimed title-independence and per-build distinctness. -/
theorem epub_identifier_title_derived :
    CC_content_opf "A" "" "" "" = opfHead "A" ++ "A" ++ opfTail "" "" ""
    ∧ CC_content_opf "B" "" "" "" = opfHead "B" ++ "B" ++ opfTail "" "" ""
    ∧ CC_content_opf "A" "" "" "" ≠ CC_content_opf "B" "" "" "" := by
  refine ⟨by decide, by decide, by decide⟩

/-! ## Batch orchestration (`main.py`, `ConvertWorker.run`, lines 349-440)

The worker's observable behaviour is its stream of emitted Qt signals,
modelled as a list of events.  Each work item's pipeline outcome is an
input: an item either fails (at extraction or a later stage, with the
captured exception text) or succeeds with the given collected image names;
a successful extraction with zero images raises
`"No images found after extraction."` (line 386). -/

/-- An emitted signal of the worker. -/
inductive Ev
  | log (s : String)
  | progressE (cur tot : Nat)
  | subE (cur tot : Nat)
  | statusE (s : String)
  | finishedE (ok fail : Nat) (out_dir : String)
deriving DecidableEq, Repr

/-- A work item together with its externally determined pipeline outcome. -/
inductive ItemSpec
  | failsAt (name reason : String)
  | succeeds (name : String) (imgs : List String)
deriving DecidableEq, Repr

def itemName : ItemSpec → String
  | ItemSpec.failsAt n _ => n
  | ItemSpec.succeeds n _ => n

/-- Does the item's pipeline raise? -/
def itemFails : ItemSpec → Bool
  | ItemSpec.failsAt _ _ => true
  | ItemSpec.succeeds _ imgs => imgs.isEmpty

/-- The exception text recorded for a failing item. -/
def itemReason : ItemSpec → String
  | ItemSpec.failsAt _ r => r
  | ItemSpec.succeeds _ _ => "No images found after extraction."

/-- Model of `pathlib.PurePath.stem`: the file name without its suffix. -/
def pyStem (name : String) : String :=
  String.mk (name.data.take (name.data.length - (pySuffix name).data.length))

/-- Python `str` of a bool. -/
def pyBool (b : Bool) : String := if b then "True" else "False"

/-- The banner line `"=" * 60`. -/
def eqLine : String := String.mk (List.replicate 60 '=')

/-- The summary line `"-" * 60`. -/
def dashLine : String := String.mk (List.replicate 60 '-')

/-- The `f"[{idx}/{total}]"` tag of the status and log lines. -/
def idxTag (idx total : Nat) : String :=
  "[" ++ Nat.repr idx ++ "/" ++ Nat.repr total ++ "]"

/-- The options of a batch run (`ConvertWorker.__init__`). -/
structure WorkerCfg where
  out_dir : String
  quality : Nat
  export_pdf : Bool
  export_epub : Bool
  epub_cover : Bool
  epub_skip_cover_page : Bool
deriving DecidableEq, Repr

/-- Events emitted by the `step` callback (lines 392-395) for the given
`on_step` invocations of `convert_to_jpegs`. -/
def stepEvents (idx total : Nat) (steps : List SubStep) : List Ev :=
  steps.flatMap (fun s =>
    [Ev.subE s.cur s.tot,
     Ev.statusE (idxTag idx total ++ " JPEG " ++ Nat.repr s.cur ++ "/" ++ Nat.repr s.tot
       ++ " — " ++ s.name)])

/-- Events emitted while processing one work item (lines 368-429). -/
def itemEvents (cfg : WorkerCfg) (total idx : Nat) (it : ItemSpec) : List Ev :=
  [Ev.progressE (idx - 1) total,
   Ev.statusE (idxTag idx total ++ " Extracting…"),
   Ev.log (idxTag idx total ++ " Extract: " ++ itemName it)] ++
  (match it with
   | ItemSpec.failsAt _ reason =>
     [Ev.statusE (idxTag idx total ++ " Failed."),
      Ev.log ("  FAIL: " ++ reason),
      Ev.progressE idx total]
   | ItemSpec.succeeds name imgs =>
     if imgs.isEmpty then
       [Ev.statusE (idxTag idx total ++ " Failed."),
        Ev.log ("  FAIL: No images found after extraction."),
        Ev.progressE idx total]
     else
       ([Ev.log ("  Images: " ++ Nat.repr imgs.length ++ " → JPEG (q="
           ++ Nat.repr cfg.quality ++ ")"),
         Ev.statusE (idxTag idx total ++ " Converting images to JPEG…"),
         Ev.subE 0 imgs.length] ++
        stepEvents idx total (convert_to_jpegs imgs).2 ++
        [Ev.subE 0 0] ++
        (if cfg.export_pdf then
          [Ev.statusE (idxTag idx total ++ " Building PDF…"),
           Ev.log ("  Build PDF: " ++ pyStem name ++ ".pdf")]
         else []) ++
        (if cfg.export_epub then
          [Ev.statusE (idxTag idx total ++ " Building EPUB…"),
           Ev.log ("  Build EPUB: " ++ pyStem name ++ ".epub")]
         else []) ++
        [Ev.statusE (idxTag idx total ++ " Done."),
         Ev.log "  OK",
         Ev.progressE idx total]))

/-- The start-of-batch banner and initial emissions (lines 355-366). -/
def headerEvents (cfg : WorkerCfg) (total : Nat) : List Ev :=
  [Ev.log eqLine,
   Ev.log ("Output: " ++ cfg.out_dir),
   Ev.log ("Quality: " ++ Nat.repr cfg.quality),
   Ev.log ("Export: PDF=" ++ pyBool cfg.export_pdf ++ " EPUB=" ++ pyBool cfg.export_epub
     ++ " (cover=" ++ pyBool cfg.epub_cover ++ ", skip-cover-page="
     ++ pyBool cfg.epub_skip_cover_page ++ ")"),
   Ev.log ("Items: " ++ Nat.repr total),
   Ev.log eqLine,
   Ev.subE 0 0,
   Ev.statusE "Starting…"]

/-- The log line for one failure in the end-of-batch summary (line 435). -/
def failLogLine (nr : String × String) : Ev :=
  Ev.log ("  - " ++ nr.1 ++ ": " ++ nr.2)

/-- The end-of-batch summary and final emissions (lines 431-440): counts,
the first 10 failures, and the completion signal last. -/
def footerEvents (cfg : WorkerCfg) (ok fail : Nat)
    (failures : List (String × String)) : List Ev :=
  [Ev.log dashLine,
   Ev.log ("Done. OK=" ++ Nat.repr ok ++ ", FAIL=" ++ Nat.repr fail)] ++
  (failures.take 10).map failLogLine ++
  [Ev.log dashLine,
   Ev.statusE "Ready.",
   Ev.subE 0 0,
   Ev.finishedE ok fail cfg.out_dir]

/-- The per-item loop of `run` (lines 368-429): every item is processed —
an exception increments `fail`, records `(name, reason)` and continues. -/
def runItemsGo (cfg : WorkerCfg) (total : Nat) :
    Nat → List ItemSpec → Nat × Nat × List (String × String) × List Ev
  | _, [] => (0, 0, [], [])
  | idx, it :: rest =>
    let r := runItemsGo cfg total (idx + 1) rest
    if itemFails it then
      (r.1, r.2.1 + 1, (itemName it, itemReason it) :: r.2.2.1,
        itemEvents cfg total idx it ++ r.2.2.2)
    else
      (r.1 + 1, r.2.1, r.2.2.1, itemEvents cfg total idx it ++ r.2.2.2)

/-- Model of `ConvertWorker.run` in `main.py` (lines 349-440): the final `ok` and
`fail` counts, the recorded failures, and the full emitted event stream. -/
def worker_run (cfg : WorkerCfg) (items : List ItemSpec) :
    Nat × Nat × List (String × String) × List Ev :=
  let r := runItemsGo cfg items.length 1 items
  (r.1, r.2.1, r.2.2.1,
    headerEvents cfg items.length ++ r.2.2.2 ++ footerEvents cfg r.1 r.2.1 r.2.2.1)

/-- Select a per-file progress emission. -/
def getProg : Ev → Option (Nat × Nat)
  | Ev.progressE c t => some (c, t)
  | _ => none

/-- Select a per-image sub-progress emission. -/
def getSub : Ev → Option (Nat × Nat)
  | Ev.subE c t => some (c, t)
  | _ => none

theorem runItemsGo_counts (cfg : WorkerCfg) (total : Nat) :
    ∀ (items : List ItemSpec) (idx : Nat),
      (runItemsGo cfg total idx items).1
          = (items.filter (fun it => !(itemFails it))).length
      ∧ (runItemsGo cfg total idx items).2.1 = (items.filter itemFails).length
      ∧ (runItemsGo cfg total idx items).2.2.1
          = (items.filter itemFails).map (fun it => (itemName it, itemReason it)) := by
  intro items
  induction items with
  | nil => intro idx; exact ⟨rfl, rfl, rfl⟩
  | cons it rest ih =>
    intro idx
    rcases ih (idx + 1) with ⟨h1, h2, h3⟩
    by_cases h : itemFails it = true
    · refine ⟨?_, ?_, ?_⟩ <;>
        simp [runItemsGo, h, List.filter_cons, h1, h2, h3]
    · have h0 : itemFails it = false := by
        cases hh : itemFails it
        · rfl
        · exact absurd hh h
      refine ⟨?_, ?_, ?_⟩ <;>
        simp [runItemsGo, h0, List.filter_cons, h1, h2, h3]

theorem progress_mem_itemEvents (cfg : WorkerCfg) (total idx : Nat) (it : ItemSpec) :
    Ev.progressE idx total ∈ itemEvents cfg total idx it := by
  unfold itemEvents
  cases it with
  | failsAt n r => simp
  | succeeds n imgs =>
    by_cases h : imgs.isEmpty = true <;> simp [h]

theorem runItemsGo_progress_mem (cfg : WorkerCfg) (total : Nat) :
    ∀ (items : List ItemSpec) (idx i : Nat), i < items.length →
      Ev.progressE (idx + i) total ∈ (runItemsGo cfg total idx items).2.2.2 := by
  intro items
  induction items with
  | nil =>
    intro idx i h
    simp at h
  | cons it rest ih =>
    intro idx i hlt
    have hmem : Ev.progressE (idx + i) total
        ∈ itemEvents cfg total idx it ++ (runItemsGo cfg total (idx + 1) rest).2.2.2 := by
      cases i with
      | zero =>
        exact List.mem_append_left _ (by simpa using progress_mem_itemEvents cfg total idx it)
      | succ i2 =>
        refine List.mem_append_right _ ?_
        have := ih (idx + 1) i2 (by simpa using hlt)
        rw [show idx + (i2 + 1) = idx + 1 + i2 from by omega]
        exact this
    by_cases h : itemFails it = true
    · simpa [runItemsGo, h] using hmem
    · have h0 : itemFails it = false := by
        cases hh : itemFails it
        · rfl
        · exact absurd hh h
      simpa [runItemsGo, h0] using hmem

/-- C3 (amended): the orchestrator never aborts early — the completion
progress event of every item is emitted — and at end of batch reports
`ok = K − M` and `fail = M` for the M failing items, recording their names
and captured reasons in order; the end-of-batch summary lists only the
first 10 failures, silently truncated: no count note is emitted when
M > 10. -/
theorem worker_batch_summary (cfg : WorkerCfg) (items : List ItemSpec) :
    (worker_run cfg items).1 = (items.filter (fun it => !(itemFails it))).length
    ∧ (worker_run cfg items).2.1 = (items.filter itemFails).length
    ∧ (worker_run cfg items).2.2.1
        = (items.filter itemFails).map (fun it => (itemName it, itemReason it))
    ∧ (∃ pre, (worker_run cfg items).2.2.2
        = pre
          ++ ([Ev.log dashLine,
               Ev.log ("Done. OK=" ++ Nat.repr (worker_run cfg items).1 ++ ", FAIL="
                 ++ Nat.repr (worker_run cfg items).2.1)]
            ++ ((worker_run cfg items).2.2.1.take 10).map failLogLine
            ++ [Ev.log dashLine, Ev.statusE "Ready.", Ev.subE 0 0,
                Ev.finishedE (worker_run cfg items).1 (worker_run cfg items).2.1
                  cfg.out_dir]))
    ∧ ∀ i, i < items.length →
        Ev.progressE (i + 1) items.length ∈ (worker_run cfg items).2.2.2 := by
  rcases runItemsGo_counts cfg items.length items 1 with ⟨h1, h2, h3⟩
  refine ⟨h1, h2, h3, ?_, ?_⟩
  · refine ⟨headerEvents cfg items.length ++ (runItemsGo cfg items.length 1 items).2.2.2, ?_⟩
    show headerEvents cfg items.length ++ (runItemsGo cfg items.length 1 items).2.2.2
        ++ footerEvents cfg _ _ _ = _
    rw [footerEvents]
    simp only [List.append_assoc]
    simp
    exact ⟨rfl, rfl⟩
  · intro i hi
    have := runItemsGo_progress_mem cfg items.length items 1 i hi
    rw [show (1 : Nat) + i = i + 1 from by omega] at this
    show Ev.progressE (i + 1) items.length
        ∈ headerEvents cfg items.length ++ (runItemsGo cfg items.length 1 items).2.2.2
          ++ footerEvents cfg _ _ _
    exact List.mem_append_left _ (List.mem_append_right _ this)

/-- Instantiation of `worker_batch_summary` at a concrete two-item batch
with one failure. -/
theorem worker_batch_summary_witness :
    (worker_run ⟨"out", 85, true, false, false, false⟩
        [ItemSpec.failsAt "a.cbz" "boom", ItemSpec.succeeds "b.cbz" ["x.png"]]).1 = 1
    ∧ (worker_run ⟨"out", 85, true, false, false, false⟩
        [ItemSpec.failsAt "a.cbz" "boom", ItemSpec.succeeds "b.cbz" ["x.png"]]).2.1 = 1
    ∧ (worker_run ⟨"out", 85, true, false, false, false⟩
        [ItemSpec.failsAt "a.cbz" "boom", ItemSpec.succeeds "b.cbz" ["x.png"]]).2.2.1
        = [("a.cbz", "boom")] := by
  have h := worker_batch_summary ⟨"out", 85, true, false, false, false⟩
    [ItemSpec.failsAt "a.cbz" "boom", ItemSpec.succeeds "b.cbz" ["x.png"]]
  refine ⟨?_, ?_, ?_⟩
  · rw [h.1]
    decide
  · rw [h.2.1]
    decide
  · rw [h.2.2.1]
    decide

/-- The batch of 11 failing items used as the C3 counterexample. -/
def itemsC3 : List ItemSpec :=
  (List.range 11).map (fun i =>
    ItemSpec.failsAt ("a" ++ Nat.repr (i + 1) ++ ".cbz") ("boom" ++ Nat.repr (i + 1)))

set_option maxRecDepth 100000 in
/-- C3 counterexample: for a batch of 11 items that all fail, the
end-of-batch summary — the final 16 emitted events, from the opening
dashed line to the completion signal — consists of the counts line,
exactly the first 10 failure lines, the closing dashed line, the final
status, the sub-progress reset and the completion signal.  No count or
truncation note about the remaining failure is emitted anywhere in it,
contradicting the claimed "count note when M > 10". -/
theorem worker_truncation_without_note :
    (worker_run ⟨"out", 85, true, false, false, false⟩ itemsC3).2.1 = 11
    ∧ (worker_run ⟨"out", 85, true, false, false, false⟩ itemsC3).2.2.2.drop
        ((worker_run ⟨"out", 85, true, false, false, false⟩ itemsC3).2.2.2.length - 16)
      = [Ev.log dashLine,
         Ev.log "Done. OK=0, FAIL=11",
         Ev.log "  - a1.cbz: boom1",
         Ev.log "  - a2.cbz: boom2",
         Ev.log "  - a3.cbz: boom3",
         Ev.log "  - a4.cbz: boom4",
         Ev.log "  - a5.cbz: boom5",
         Ev.log "  - a6.cbz: boom6",
         Ev.log "  - a7.cbz: boom7",
         Ev.log "  - a8.cbz: boom8",
         Ev.log "  - a9.cbz: boom9",
         Ev.log "  - a10.cbz: boom10",
         Ev.log dashLine,
         Ev.statusE "Ready.",
         Ev.subE 0 0,
         Ev.finishedE 0 11 "out"] := by
  refine ⟨by decide, by decide⟩

/-! ### Shape of the emitted progress values -/

/-- The per-item progress pattern: item `idx + k` emits `(idx + k - 1, total)`
before and `(idx + k, total)` after processing. -/
def stairs (total idx n : Nat) : List (Nat × Nat) :=
  (List.range n).flatMap (fun k => [(idx + k - 1, total), (idx + k, total)])

theorem stairs_cons (total idx n : Nat) :
    stairs total idx (n + 1)
      = (idx - 1, total) :: (idx, total) :: stairs total (idx + 1) n := by
  unfold stairs
  rw [List.range_succ_eq_map, List.flatMap_cons, List.flatMap_map]
  rw [show (fun a => [(idx + Nat.succ a - 1, total), (idx + Nat.succ a, total)])
      = fun k => [(idx + 1 + k - 1, total), (idx + 1 + k, total)] from
    funext fun k => by
      rw [show idx + Nat.succ k - 1 = idx + 1 + k - 1 from by omega,
        show idx + Nat.succ k = idx + 1 + k from by omega]]
  simp

theorem stairs_mem (total : Nat) :
    ∀ (n idx : Nat) (x : Nat × Nat), x ∈ stairs total idx n →
      idx - 1 ≤ x.1 ∧ x.2 = total := by
  intro n idx x hx
  rcases List.mem_flatMap.mp hx with ⟨k, _, hmem⟩
  rcases List.mem_cons.mp hmem with rfl | hmem
  · exact ⟨by simp; omega, rfl⟩
  rcases List.mem_cons.mp hmem with rfl | hmem
  · exact ⟨by simp; omega, rfl⟩
  · simp at hmem

theorem stairs_pairwise (total : Nat) :
    ∀ (n idx : Nat), (stairs total idx n).Pairwise (fun a b : Nat × Nat => a.1 ≤ b.1) := by
  intro n
  induction n with
  | zero => intro idx; simp [stairs]
  | succ n ih =>
    intro idx
    rw [stairs_cons]
    refine List.pairwise_cons.mpr ⟨?_, List.pairwise_cons.mpr ⟨?_, ih (idx + 1)⟩⟩
    · intro x hx
      rcases List.mem_cons.mp hx with rfl | hx
      · simp
      · have := (stairs_mem total n (idx + 1) x hx).1
        simp
        omega
    · intro x hx
      have := (stairs_mem total n (idx + 1) x hx).1
      omega

theorem filterMap_none_aux {α β : Type} :
    ∀ l : List α, l.filterMap (fun _ => (none : Option β)) = [] := by
  intro l
  induction l with
  | nil => rfl
  | cons a l ih => simpa [List.filterMap_cons] using ih

theorem flatMap_nil_aux {α β : Type} :
    ∀ l : List α, (l.flatMap (fun _ => ([] : List β))) = [] := by
  intro l
  induction l with
  | nil => rfl
  | cons a l ih => simpa [List.flatMap_cons] using ih

theorem stepEvents_no_prog (idx total : Nat) (steps : List SubStep) :
    (stepEvents idx total steps).filterMap getProg = [] := by
  unfold stepEvents
  rw [filterMap_flatMap_aux]
  rw [show (fun s : SubStep =>
      ([Ev.subE s.cur s.tot,
        Ev.statusE (idxTag idx total ++ " JPEG " ++ Nat.repr s.cur ++ "/" ++ Nat.repr s.tot
          ++ " — " ++ s.name)] : List Ev).filterMap getProg)
      = fun _ => ([] : List (Nat × Nat)) from funext fun s => rfl]
  exact flatMap_nil_aux _

theorem stepEvents_subList (idx total : Nat) (steps : List SubStep) :
    (stepEvents idx total steps).filterMap getSub
      = steps.map (fun s => (s.cur, s.tot)) := by
  unfold stepEvents
  rw [filterMap_flatMap_aux]
  rw [show (fun s : SubStep =>
      ([Ev.subE s.cur s.tot,
        Ev.statusE (idxTag idx total ++ " JPEG " ++ Nat.repr s.cur ++ "/" ++ Nat.repr s.tot
          ++ " — " ++ s.name)] : List Ev).filterMap getSub)
      = fun s : SubStep => [(s.cur, s.tot)] from funext fun s => rfl]
  exact flatMap_singleton_aux _ _

theorem convertGo_subPairs (total : Nat) :
    ∀ (imgs : List String) (i : Nat),
      (convertGo total i imgs).2.map (fun s => (s.cur, s.tot)) = stairs total i imgs.length := by
  intro imgs
  induction imgs with
  | nil => intro i; rfl
  | cons img rest ih =>
    intro i
    simp only [convertGo, List.map_cons, List.length_cons]
    rw [stairs_cons, ih (i + 1)]

theorem itemEvents_progList (cfg : WorkerCfg) (total idx : Nat) (it : ItemSpec) :
    (itemEvents cfg total idx it).filterMap getProg
      = [(idx - 1, total), (idx, total)] := by
  unfold itemEvents
  cases it with
  | failsAt n r => rfl
  | succeeds n imgs =>
    by_cases he : imgs.isEmpty = true
    · simp only [he, if_true, ite_true]
      rfl
    · simp only [he, Bool.false_eq_true, if_false, ite_false]
      cases hp : cfg.export_pdf <;> cases hq : cfg.export_epub <;>
        simp [List.filterMap_append, List.filterMap_cons, stepEvents_no_prog, getProg]

theorem itemEvents_subList (cfg : WorkerCfg) (total idx : Nat) (n : String)
    (imgs : List String) (hne : imgs.isEmpty = false) :
    (itemEvents cfg total idx (ItemSpec.succeeds n imgs)).filterMap getSub
      = (0, imgs.length) :: (stairs imgs.length 1 imgs.length ++ [(0, 0)]) := by
  unfold itemEvents
  simp only [hne, Bool.false_eq_true, if_false, ite_false]
  cases hp : cfg.export_pdf <;> cases hq : cfg.export_epub <;>
    simp [List.filterMap_append, List.filterMap_cons, stepEvents_subList, getSub,
      convert_to_jpegs, convertGo_subPairs imgs.length imgs 1]

theorem runItemsGo_progList (cfg : WorkerCfg) (total : Nat) :
    ∀ (items : List ItemSpec) (idx : Nat),
      (runItemsGo cfg total idx items).2.2.2.filterMap getProg
        = stairs total idx items.length := by
  intro items
  induction items with
  | nil => intro idx; rfl
  | cons it rest ih =>
    intro idx
    have hbody : (itemEvents cfg total idx it
          ++ (runItemsGo cfg total (idx + 1) rest).2.2.2).filterMap getProg
        = stairs total idx (rest.length + 1) := by
      rw [List.filterMap_append, itemEvents_progList, ih (idx + 1), stairs_cons]
      rfl
    by_cases h : itemFails it = true
    · simpa [runItemsGo, h] using hbody
    · have h0 : itemFails it = false := by
        cases hh : itemFails it
        · rfl
        · exact absurd hh h
      simpa [runItemsGo, h0] using hbody

theorem footer_no_prog (cfg : WorkerCfg) (ok fail : Nat)
    (failures : List (String × String)) :
    (footerEvents cfg ok fail failures).filterMap getProg = [] := by
  unfold footerEvents
  rw [List.filterMap_append, List.filterMap_append, List.filterMap_map]
  rw [show (getProg ∘ failLogLine) = fun _ => (none : Option (Nat × Nat)) from
    funext fun x => rfl]
  rw [filterMap_none_aux]
  rfl

theorem stairs_mem_le (total : Nat) :
    ∀ (n idx : Nat) (x : Nat × Nat), x ∈ stairs total idx n →
      idx + n ≤ total + 1 → x.1 ≤ x.2 := by
  intro n idx x hx hbound
  rcases List.mem_flatMap.mp hx with ⟨k, hk, hmem⟩
  have hk2 : k < n := List.mem_range.mp hk
  rcases List.mem_cons.mp hmem with rfl | hmem
  · simp
    omega
  rcases List.mem_cons.mp hmem with rfl | hmem
  · simp
    omega
  · simp at hmem

theorem itemEvents_sub_le (cfg : WorkerCfg) (total idx : Nat) (it : ItemSpec)
    (c t : Nat) : Ev.subE c t ∈ itemEvents cfg total idx it → c ≤ t := by
  cases it with
  | failsAt n r =>
    intro h
    unfold itemEvents at h
    simp at h
  | succeeds n imgs =>
    by_cases he : imgs.isEmpty = true
    · have : imgs = [] := List.isEmpty_iff.mp he
      subst this
      intro h
      unfold itemEvents at h
      simp at h
    · have h0 : imgs.isEmpty = false := by
        cases hh : imgs.isEmpty
        · rfl
        · exact absurd hh he
      intro h
      have hmem : (c, t) ∈ (itemEvents cfg total idx (ItemSpec.succeeds n imgs)).filterMap getSub :=
        List.mem_filterMap.mpr ⟨_, h, rfl⟩
      rw [itemEvents_subList cfg total idx n imgs h0] at hmem
      rcases List.mem_cons.mp hmem with heq | hmem
      · have : c = 0 := congrArg Prod.fst heq
        omega
      rcases List.mem_append.mp hmem with hmem | hmem
      · exact stairs_mem_le imgs.length imgs.length 1 (c, t) hmem (by omega)
      · rcases List.mem_cons.mp hmem with heq | hmem
        · have : c = 0 := congrArg Prod.fst heq
          omega
        · simp at hmem

theorem runItemsGo_sub_le (cfg : WorkerCfg) (total : Nat) :
    ∀ (items : List ItemSpec) (idx c t : Nat),
      Ev.subE c t ∈ (runItemsGo cfg total idx items).2.2.2 → c ≤ t := by
  intro items
  induction items with
  | nil =>
    intro idx c t h
    simp [runItemsGo] at h
  | cons it rest ih =>
    intro idx c t h
    have hsplit : Ev.subE c t
        ∈ itemEvents cfg total idx it ++ (runItemsGo cfg total (idx + 1) rest).2.2.2 := by
      by_cases hf : itemFails it = true
      · simpa [runItemsGo, hf] using h
      · have h0 : itemFails it = false := by
          cases hh : itemFails it
          · rfl
          · exact absurd hh hf
        simpa [runItemsGo, h0] using h
    rcases List.mem_append.mp hsplit with h1 | h1
    · exact itemEvents_sub_le cfg total idx it c t h1
    · exact ih (idx + 1) c t h1

theorem itemEvents_sub_monotone (cfg : WorkerCfg) (total idx : Nat) (it : ItemSpec) :
    (((itemEvents cfg total idx it).filterMap getSub).filter
        (fun p : Nat × Nat => 0 < p.2)).Pairwise (fun a b : Nat × Nat => a.1 ≤ b.1) := by
  cases it with
  | failsAt n r =>
    rw [show (itemEvents cfg total idx (ItemSpec.failsAt n r)).filterMap getSub
        = [] from rfl]
    simp
  | succeeds n imgs =>
    by_cases he : imgs.isEmpty = true
    · have : imgs = [] := List.isEmpty_iff.mp he
      subst this
      rw [show (itemEvents cfg total idx (ItemSpec.succeeds n [])).filterMap getSub
          = [] from rfl]
      simp
    · have h0 : imgs.isEmpty = false := by
        cases hh : imgs.isEmpty
        · rfl
        · exact absurd hh he
      have hlen : 0 < imgs.length := by
        cases imgs with
        | nil => simp at h0
        | cons a l => simp
      rw [itemEvents_subList cfg total idx n imgs h0]
      rw [List.filter_cons]
      have hkeep : (0 < ((0 : Nat), imgs.length).2) = True := by
        simp [hlen]
      rw [List.filter_append]
      rw [List.filter_eq_self.mpr
        (fun x hx => by
          have := (stairs_mem imgs.length imgs.length 1 x hx).2
          simp [this, hlen])]
      rw [show (([((0 : Nat), (0 : Nat))] : List (Nat × Nat)).filter
          (fun p : Nat × Nat => 0 < p.2)) = [] from rfl]
      simp only [hkeep, if_true, ite_true, List.append_nil]
      refine List.pairwise_cons.mpr ⟨?_, stairs_pairwise imgs.length imgs.length 1⟩
      intro b _
      exact Nat.zero_le _

/-- C8 (amended): every emitted per-file progress and per-image sub-progress
value satisfies current ≤ total; the per-file progress sequence is
monotonically non-decreasing across the whole batch; within one item's
processing, the sub-progress values with positive total are monotonically
non-decreasing (the `(0, 0)` emissions are hide/reset markers); and the
batch-completion signal is the last event of the run — no progress, status
or log event follows it. -/
theorem worker_progress_wellformed (cfg : WorkerCfg) (items : List ItemSpec) :
    (∀ c t, Ev.progressE c t ∈ (worker_run cfg items).2.2.2 → c ≤ t)
    ∧ (∀ c t, Ev.subE c t ∈ (worker_run cfg items).2.2.2 → c ≤ t)
    ∧ ((worker_run cfg items).2.2.2.filterMap getProg).Pairwise
        (fun a b : Nat × Nat => a.1 ≤ b.1)
    ∧ (∀ (total idx : Nat) (it : ItemSpec),
        (((itemEvents cfg total idx it).filterMap getSub).filter
            (fun p : Nat × Nat => 0 < p.2)).Pairwise (fun a b : Nat × Nat => a.1 ≤ b.1))
    ∧ ∃ pre, (worker_run cfg items).2.2.2
        = pre ++ [Ev.finishedE (worker_run cfg items).1 (worker_run cfg items).2.1
            cfg.out_dir] := by
  have hprogAll : (worker_run cfg items).2.2.2.filterMap getProg
      = stairs items.length 1 items.length := by
    show ((headerEvents cfg items.length ++ (runItemsGo cfg items.length 1 items).2.2.2
        ++ footerEvents cfg _ _ _).filterMap getProg) = _
    rw [List.filterMap_append, List.filterMap_append, runItemsGo_progList, footer_no_prog]
    rw [show (headerEvents cfg items.length).filterMap getProg = [] from rfl]
    simp
  refine ⟨?_, ?_, ?_, ?_, ?_⟩
  · intro c t h
    have hm : (c, t) ∈ (worker_run cfg items).2.2.2.filterMap getProg :=
      List.mem_filterMap.mpr ⟨_, h, rfl⟩
    rw [hprogAll] at hm
    exact stairs_mem_le items.length items.length 1 (c, t) hm (by omega)
  · intro c t h
    rcases List.mem_append.mp h with h1 | h1
    · rcases List.mem_append.mp h1 with h2 | h2
      · simp [headerEvents] at h2
        omega
      · exact runItemsGo_sub_le cfg items.length items 1 c t h2
    · simp [footerEvents] at h1
      rcases h1 with h1 | ⟨rfl, rfl⟩
      · rcases List.mem_map.mp (List.mem_of_mem_take h1) with ⟨x, _, hx⟩
        simp [failLogLine] at hx
      · omega
  · rw [hprogAll]
    exact stairs_pairwise items.length items.length 1
  · intro total idx it
    exact itemEvents_sub_monotone cfg total idx it
  · refine ⟨headerEvents cfg items.length ++ (runItemsGo cfg items.length 1 items).2.2.2
      ++ ([Ev.log dashLine,
           Ev.log ("Done. OK=" ++ Nat.repr (runItemsGo cfg items.length 1 items).1
             ++ ", FAIL=" ++ Nat.repr (runItemsGo cfg items.length 1 items).2.1)]
        ++ ((runItemsGo cfg items.length 1 items).2.2.1.take 10).map failLogLine
        ++ [Ev.log dashLine, Ev.statusE "Ready.", Ev.subE 0 0]), ?_⟩
    show headerEvents cfg items.length ++ (runItemsGo cfg items.length 1 items).2.2.2
        ++ footerEvents cfg _ _ _ = _
    rw [footerEvents]
    simp [List.append_assoc]
    exact ⟨rfl, rfl⟩

/-- Instantiation of `worker_progress_wellformed` at a concrete one-item
batch. -/
theorem worker_progress_wellformed_witness :
    ((worker_run ⟨"o", 85, false, false, false, false⟩
        [ItemSpec.succeeds "a.cbz" ["x.png"]]).2.2.2.filterMap getProg).Pairwise
      (fun a b : Nat × Nat => a.1 ≤ b.1)
    ∧ ∃ pre, (worker_run ⟨"o", 85, false, false, false, false⟩
          [ItemSpec.succeeds "a.cbz" ["x.png"]]).2.2.2
        = pre ++ [Ev.finishedE
            (worker_run ⟨"o", 85, false, false, false, false⟩
              [ItemSpec.succeeds "a.cbz" ["x.png"]]).1
            (worker_run ⟨"o", 85, false, false, false, false⟩
              [ItemSpec.succeeds "a.cbz" ["x.png"]]).2.1 "o"] :=
  ⟨(worker_progress_wellformed ⟨"o", 85, false, false, false, false⟩
      [ItemSpec.succeeds "a.cbz" ["x.png"]]).2.2.1,
    (worker_progress_wellformed ⟨"o", 85, false, false, false, false⟩
      [ItemSpec.succeeds "a.cbz" ["x.png"]]).2.2.2.2⟩

set_option maxRecDepth 100000 in
/-- C8 counterexample: in a batch with one item holding one image, the
sub-progress channel emits, in order, (0,0), (0,1), (0,1), (1,1), (0,0),
(0,0) — after reaching (1,1) the worker emits the (0,0) reset, so the
current value of the sub-progress sequence is not monotonically
non-decreasing as the claim states. -/
theorem subprogress_not_monotone :
    ((worker_run ⟨"out", 85, false, false, false, false⟩
        [ItemSpec.succeeds "a.cbz" ["x.png"]]).2.2.2.filterMap getSub)
      = [(0, 0), (0, 1), (0, 1), (1, 1), (0, 0), (0, 0)]
    ∧ ¬ ((worker_run ⟨"out", 85, false, false, false, false⟩
        [ItemSpec.succeeds "a.cbz" ["x.png"]]).2.2.2.filterMap getSub).Pairwise
          (fun a b : Nat × Nat => a.1 ≤ b.1) := by
  constructor
  · decide
  · intro hp
    rw [show ((worker_run ⟨"out", 85, false, false, false, false⟩
        [ItemSpec.succeeds "a.cbz" ["x.png"]]).2.2.2.filterMap getSub)
      = [(0, 0), (0, 1), (0, 1), (1, 1), (0, 0), (0, 0)] from by decide] at hp
    have h1 := (List.pairwise_cons.mp hp).2
    have h2 := (List.pairwise_cons.mp h1).2
    have h3 := (List.pairwise_cons.mp h2).2
    have h4 := (List.pairwise_cons.mp h3).1 (0, 0) (by simp)
    simp at h4

/-- Instantiation of `collect_images_natural_order` at a concrete walk. -/
theorem collect_images_natural_order_witness :
    (collect_images ["p2.jpg", "notes.txt", "p10.jpg", "p1.jpg"]).Perm
        (["p2.jpg", "notes.txt", "p10.jpg", "p1.jpg"].filter isImageFile)
    ∧ (collect_images ["p2.jpg", "notes.txt", "p10.jpg", "p1.jpg"]).Pairwise
        (fun a b => keyLeB a b = true)
    ∧ collect_images ["p2.jpg", "p10.jpg", "p1.jpg"] = ["p1.jpg", "p2.jpg", "p10.jpg"] :=
  collect_images_natural_order ["p2.jpg", "notes.txt", "p10.jpg", "p1.jpg"]

/-- Instantiation of `convert_to_jpegs_names` at a concrete input. -/
theorem convert_to_jpegs_names_witness :
    (convert_to_jpegs ["z9.webp", "a.png"]).1
      = (List.range (["z9.webp", "a.png"] : List String).length).map
          (fun k => pad5 (k + 1) ++ ".jpg")
    ∧ (convert_to_jpegs ["z9.webp", "a.png"]).1.length
        = (["z9.webp", "a.png"] : List String).length
    ∧ (convert_to_jpegs ["cover.png", "b.webp", "a.tif"]).1
        = ["00001.jpg", "00002.jpg", "00003.jpg"] :=
  convert_to_jpegs_names ["z9.webp", "a.png"]

/-- Instantiation of `natural_key_always_comparable` at two concrete
names. -/
theorem natural_key_always_comparable_witness :
    keyShape (natural_key "page2.JPG") true = true
    ∧ (∃ o, cmpKey (natural_key "page2.JPG") (natural_key "10-cover.png") = some o)
    ∧ (keyLeB "page2.JPG" "10-cover.png" = true
        ∨ keyLeB "10-cover.png" "page2.JPG" = true) :=
  natural_key_always_comparable "page2.JPG" "10-cover.png"
